import Mathlib

/-!
Verification of `supervision/utils/image.py` (image tiling, letterboxing and
placement utilities).  Rasters are modelled as lists of rows of BGR pixels,
machine floats as exact rationals, and the external `cv2.resize` interpolation
as an explicit function parameter (only the shape of its output is fixed by
the OpenCV contract).  Python exceptions are modelled with `Except String`.
-/

set_option autoImplicit false

/-- A BGR pixel: a triple of channel intensities. -/
abbrev Pix := Nat × Nat × Nat

/-- A raster: list of rows, each row a list of pixels.  `height` is the number
of rows, `width` the length of the first row (rows are uniform for the
rectangular rasters numpy produces). -/
abbrev Raster := List (List Pix)

def rasterHeight (r : Raster) : Nat := r.length

def rasterWidth (r : Raster) : Nat := (r.headD []).length

/-- `r` is a rectangular `h × w` pixel buffer. -/
def isRect (r : Raster) (h w : Nat) : Prop :=
  r.length = h ∧ ∀ row ∈ r, row.length = w

instance (r : Raster) (h w : Nat) : Decidable (isRect r h w) := by
  unfold isRect; infer_instance

/-- Pixel accessor (out-of-range reads return a default; the theorems only
quantify over in-range coordinates). -/
def getPix (r : Raster) (y x : Nat) : Pix := (r.getD y []).getD x (0, 0, 0)

/-- A 2D anchor point, `(0,0)` top-left; coordinates are exact rationals
standing for the Python floats. -/
structure Point where
  x : ℚ
  y : ℚ
deriving DecidableEq, Repr

/- ### Generic list-indexing lemmas used throughout -/

theorem getD_append_lt {α : Type} (l₁ l₂ : List α) (i : Nat) (d : α)
    (h : i < l₁.length) : (l₁ ++ l₂).getD i d = l₁.getD i d := by
  induction l₁ generalizing i with
  | nil => simp at h
  | cons a t ih =>
    cases i with
    | zero => rfl
    | succ j => simpa using ih j (by simpa using h)

theorem getD_append_ge {α : Type} (l₁ l₂ : List α) (i : Nat) (d : α)
    (h : l₁.length ≤ i) : (l₁ ++ l₂).getD i d = l₂.getD (i - l₁.length) d := by
  induction l₁ generalizing i with
  | nil => simp
  | cons a t ih =>
    cases i with
    | zero => simp at h
    | succ j => simpa using ih j (by simpa using h)

theorem getD_replicate {α : Type} (n : Nat) (a : α) (i : Nat) (d : α)
    (h : i < n) : (List.replicate n a).getD i d = a := by
  induction n generalizing i with
  | zero => simp at h
  | succ m ih =>
    cases i with
    | zero => rfl
    | succ j =>
      rw [List.replicate_succ, List.getD_cons_succ]
      exact ih j (by omega)

theorem getD_map {α β : Type} (f : α → β) (l : List α) (i : Nat) (d : β) (d' : α)
    (h : i < l.length) : (l.map f).getD i d = f (l.getD i d') := by
  induction l generalizing i with
  | nil => simp at h
  | cons a t ih =>
    cases i with
    | zero => rfl
    | succ j => simpa using ih j (by simpa using h)

theorem getD_take {α : Type} (l : List α) (n i : Nat) (d : α)
    (h : i < n) : (l.take n).getD i d = l.getD i d := by
  induction l generalizing n i with
  | nil => simp
  | cons a t ih =>
    cases n with
    | zero => omega
    | succ m =>
      cases i with
      | zero => rfl
      | succ j => simpa using ih m j (by omega)

theorem getD_drop {α : Type} (l : List α) (n i : Nat) (d : α) :
    (l.drop n).getD i d = l.getD (n + i) d := by
  induction l generalizing n with
  | nil => simp
  | cons a t ih =>
    cases n with
    | zero => simp
    | succ m => simpa [Nat.succ_add] using ih m

/- ### Grid planning (`_negotiate_grid_size`, `_establish_grid_size`) -/

/-- `MAX_COLUMNS_FOR_SINGLE_ROW_GRID` from the source. -/
def MAX_COLUMNS_FOR_SINGLE_ROW_GRID : Nat := 3

/-- `math.ceil(np.sqrt(n))`, exactly: the least `c` with `c * c ≥ n`. -/
def ceilSqrt (n : Nat) : Nat :=
  if n = 0 then 0 else Nat.sqrt (n - 1) + 1

/-- The `while proposed_columns * (proposed_rows - 1) >= len(images)` loop of
`_negotiate_grid_size`, decrementing the row count. -/
def trimRows (columns n : Nat) : Nat → Nat
  | 0 => 0
  | r + 1 => if n ≤ columns * r then trimRows columns n r else r + 1

/-- `_negotiate_grid_size` (on the number of images): `(rows, columns)`. -/
def negotiate_grid_size (n : Nat) : Nat × Nat :=
  if n ≤ MAX_COLUMNS_FOR_SINGLE_ROW_GRID then (1, n)
  else
    let nearest_sqrt := ceilSqrt n
    (trimRows nearest_sqrt n nearest_sqrt, nearest_sqrt)

/-- `_establish_grid_size` (on the number of images): resolve an optional,
possibly partially specified `(rows, columns)` override. -/
def establish_grid_size (n : Nat) :
    Option (Option Nat × Option Nat) → Nat × Nat
  | none => negotiate_grid_size n
  | some (none, none) => negotiate_grid_size n
  | some (none, some c) => ((n + c - 1) / c, c)
  | some (some r, none) => (r, (n + r - 1) / r)
  | some (some r, some c) => (r, c)

theorem ceilSqrt_sq_ge (n : Nat) (hn : 1 ≤ n) : n ≤ ceilSqrt n * ceilSqrt n := by
  unfold ceilSqrt
  rw [if_neg (by omega)]
  have h := Nat.lt_succ_sqrt (n - 1)
  calc n = (n - 1) + 1 := by omega
    _ ≤ (Nat.sqrt (n - 1) + 1) * (Nat.sqrt (n - 1) + 1) := by nlinarith

theorem ceilSqrt_pred_sq_lt (n : Nat) (hn : 1 ≤ n) :
    (ceilSqrt n - 1) * (ceilSqrt n - 1) < n := by
  unfold ceilSqrt
  rw [if_neg (by omega)]
  have h := Nat.sqrt_le (n - 1)
  simpa using Nat.lt_of_le_of_lt h (by omega)

theorem trimRows_spec (c n : Nat) (hn : 1 ≤ n) :
    ∀ r, n ≤ c * r →
      1 ≤ trimRows c n r ∧ n ≤ trimRows c n r * c ∧ c * (trimRows c n r - 1) < n := by
  intro r
  induction r with
  | zero => intro h; simp at h; omega
  | succ k ih =>
    intro h
    have hstep : trimRows c n (k + 1) = if n ≤ c * k then trimRows c n k else k + 1 := rfl
    by_cases hk : n ≤ c * k
    · rw [hstep, if_pos hk]; exact ih hk
    · rw [hstep, if_neg hk]
      refine ⟨by omega, ?_, ?_⟩
      · rw [Nat.mul_comm]; exact h
      · have hk' : c * k < n := Nat.lt_of_not_le hk
        simpa using hk'

theorem negotiate_grid_rows_unique (c n r₁ r₂ : Nat)
    (h₁ : 1 ≤ r₁) (h₂ : n ≤ r₁ * c) (h₃ : c * (r₁ - 1) < n)
    (h₄ : 1 ≤ r₂) (h₅ : n ≤ r₂ * c) (h₆ : c * (r₂ - 1) < n) : r₁ = r₂ := by
  by_contra hne
  rcases Nat.lt_or_ge r₁ r₂ with hlt | hge
  · have : r₁ ≤ r₂ - 1 := by omega
    have : r₁ * c ≤ c * (r₂ - 1) := by
      calc r₁ * c = c * r₁ := Nat.mul_comm _ _
        _ ≤ c * (r₂ - 1) := Nat.mul_le_mul_left c this
    omega
  · have hlt : r₂ < r₁ := by omega
    have : r₂ ≤ r₁ - 1 := by omega
    have : r₂ * c ≤ c * (r₁ - 1) := by
      calc r₂ * c = c * r₂ := Nat.mul_comm _ _
        _ ≤ c * (r₁ - 1) := Nat.mul_le_mul_left c this
    omega

/-- C2: automatic grid planning.  For `1 ≤ n ≤ 3` the grid is `(1, n)`; for
`n > 3` the column count is `ceil(sqrt n)` (characterised as the least `c`
with `c*c ≥ n`) and the row count is the unique `rows ≥ 1` with
`rows*columns ≥ n` and `columns*(rows-1) < n`. -/
theorem grid_planning_reference (n : Nat) (hn : 1 ≤ n) :
    (n ≤ 3 → negotiate_grid_size n = (1, n)) ∧
    (3 < n →
      let rc := negotiate_grid_size n
      (n ≤ rc.2 * rc.2 ∧ (rc.2 - 1) * (rc.2 - 1) < n) ∧
      1 ≤ rc.1 ∧ n ≤ rc.1 * rc.2 ∧ rc.2 * (rc.1 - 1) < n ∧
      ∀ r, 1 ≤ r → n ≤ r * rc.2 → rc.2 * (r - 1) < n → r = rc.1) := by
  constructor
  · intro h3
    unfold negotiate_grid_size MAX_COLUMNS_FOR_SINGLE_ROW_GRID
    rw [if_pos h3]
  · intro h3
    have hng : negotiate_grid_size n =
        (trimRows (ceilSqrt n) n (ceilSqrt n), ceilSqrt n) := by
      unfold negotiate_grid_size MAX_COLUMNS_FOR_SINGLE_ROW_GRID
      rw [if_neg (by omega)]
    intro rc
    have hsq := ceilSqrt_sq_ge n hn
    have htrim := trimRows_spec (ceilSqrt n) n hn (ceilSqrt n)
      (by simpa [Nat.mul_comm] using hsq)
    have hrc1 : rc.1 = trimRows (ceilSqrt n) n (ceilSqrt n) := by
      simp [rc, hng]
    have hrc2 : rc.2 = ceilSqrt n := by simp [rc, hng]
    refine ⟨⟨?_, ?_⟩, ?_, ?_, ?_, ?_⟩
    · rw [hrc2]; exact hsq
    · rw [hrc2]; exact ceilSqrt_pred_sq_lt n hn
    · rw [hrc1]; exact htrim.1
    · rw [hrc1, hrc2]; exact htrim.2.1
    · rw [hrc1, hrc2]; exact htrim.2.2
    · intro r hr1 hr2 hr3
      rw [hrc1]
      exact negotiate_grid_rows_unique (ceilSqrt n) n r _
        hr1 (by rwa [hrc2] at hr2) (by rwa [hrc2] at hr3)
        htrim.1 htrim.2.1 htrim.2.2

/-- Witness for C2 at `n = 5` (the automatic grid there is `(2, 3)`). -/
theorem grid_planning_reference_witness :
    (5 ≤ 3 → negotiate_grid_size 5 = (1, 5)) ∧
    (3 < 5 →
      let rc := negotiate_grid_size 5
      (5 ≤ rc.2 * rc.2 ∧ (rc.2 - 1) * (rc.2 - 1) < 5) ∧
      1 ≤ rc.1 ∧ 5 ≤ rc.1 * rc.2 ∧ rc.2 * (rc.1 - 1) < 5 ∧
      ∀ r, 1 ≤ r → 5 ≤ r * rc.2 → rc.2 * (r - 1) < 5 → r = rc.1) :=
  grid_planning_reference 5 (by decide)

/- ### Aspect-ratio-preserving resize and letterboxing
(`resize_image_keeping_aspect_ratio`, `letterbox_image`) -/

/-- Python `int(...)` on a nonnegative rational: truncation = floor. -/
def ratToNat (q : ℚ) : Nat := (⌊q⌋).toNat

/-- Model of `cv2.resize(image, (w, h))` (external library call): an `h × w`
raster whose pixel values are produced by an interpolation function `interp`;
only the shape of the output is fixed by the OpenCV contract. -/
def cv2_resize (interp : Raster → Nat × Nat → Nat → Nat → Pix)
    (img : Raster) (w h : Nat) : Raster :=
  (List.range h).map (fun y => (List.range w).map (fun x => interp img (w, h) y x))

/-- `resize_image_keeping_aspect_ratio(image, desired_size)`; `desired_size`
is `(width, height)` and the early return fires when
`image.shape[:2] == desired_size[::-1]`. -/
def resize_image_keeping_aspect_ratio (interp : Raster → Nat × Nat → Nat → Nat → Pix)
    (image : Raster) (desired_size : Nat × Nat) : Raster :=
  if (image.length, rasterWidth image) = (desired_size.2, desired_size.1) then image
  else if (desired_size.1 : ℚ) / (desired_size.2 : ℚ) ≤
      (rasterWidth image : ℚ) / (image.length : ℚ) then
    cv2_resize interp image desired_size.1
      (ratToNat ((desired_size.1 : ℚ) / ((rasterWidth image : ℚ) / (image.length : ℚ))))
  else
    cv2_resize interp image
      (ratToNat ((desired_size.2 : ℚ) * ((rasterWidth image : ℚ) / (image.length : ℚ))))
      desired_size.2

/-- Model of `cv2.copyMakeBorder(img, top, bottom, left, right,
BORDER_CONSTANT, value=color)`. -/
def copyMakeBorder (img : Raster) (top bottom left right : Nat) (color : Pix) : Raster :=
  let paddedWidth := rasterWidth img + left + right
  List.replicate top (List.replicate paddedWidth color)
    ++ img.map (fun row => List.replicate left color ++ row ++ List.replicate right color)
    ++ List.replicate bottom (List.replicate paddedWidth color)

/-- `letterbox_image(image, desired_size, color)`; `desired_size` is
`(width, height)`. -/
def letterbox_image (interp : Raster → Nat × Nat → Nat → Nat → Pix)
    (image : Raster) (desired_size : Nat × Nat) (color : Pix) : Raster :=
  let resized_img := resize_image_keeping_aspect_ratio interp image desired_size
  let new_height := resized_img.length
  let new_width := rasterWidth resized_img
  let top_padding := (desired_size.2 - new_height) / 2
  let bottom_padding := desired_size.2 - new_height - top_padding
  let left_padding := (desired_size.1 - new_width) / 2
  let right_padding := desired_size.1 - new_width - left_padding
  copyMakeBorder resized_img top_padding bottom_padding left_padding right_padding color

theorem rasterWidth_of_isRect (r : Raster) (h w : Nat) (hr : isRect r h w)
    (hh : 1 ≤ h) : rasterWidth r = w := by
  cases r with
  | nil => exact absurd hr.1 (by simp; omega)
  | cons a t => exact hr.2 a (by simp)

theorem cv2_resize_length (interp : Raster → Nat × Nat → Nat → Nat → Pix)
    (img : Raster) (w h : Nat) : (cv2_resize interp img w h).length = h := by
  simp [cv2_resize]

theorem cv2_resize_rect (interp : Raster → Nat × Nat → Nat → Nat → Pix)
    (img : Raster) (w h : Nat) : isRect (cv2_resize interp img w h) h w := by
  refine ⟨by simp [cv2_resize], ?_⟩
  intro row hrow
  simp [cv2_resize] at hrow
  obtain ⟨y, _, hy⟩ := hrow
  simp [← hy]

theorem cv2_resize_width (interp : Raster → Nat × Nat → Nat → Nat → Pix)
    (img : Raster) (w h : Nat) (hh : 1 ≤ h) :
    rasterWidth (cv2_resize interp img w h) = w :=
  rasterWidth_of_isRect _ h w (cv2_resize_rect interp img w h) hh

theorem cv2_resize_width_le (interp : Raster → Nat × Nat → Nat → Nat → Pix)
    (img : Raster) (w h : Nat) : rasterWidth (cv2_resize interp img w h) ≤ w := by
  cases h with
  | zero => simp [cv2_resize, rasterWidth]
  | succ m => rw [cv2_resize_width interp img w (m + 1) (by omega)]

theorem ratToNat_natCast_div (a b : Nat) :
    ratToNat ((a : ℚ) / (b : ℚ)) = a / b := by
  unfold ratToNat
  rw [Int.floor_toNat, Nat.floor_div_eq_div]

theorem rat_div_div_ratio (a w h : Nat) (hw : 0 < w) (hh : 0 < h) :
    (a : ℚ) / ((w : ℚ) / (h : ℚ)) = ((a * h : Nat) : ℚ) / (w : ℚ) := by
  have hw' : (w : ℚ) ≠ 0 := by positivity
  have hh' : (h : ℚ) ≠ 0 := by positivity
  push_cast
  field_simp

theorem rat_mul_ratio (a w h : Nat) (hh : 0 < h) :
    (a : ℚ) * ((w : ℚ) / (h : ℚ)) = ((a * w : Nat) : ℚ) / (h : ℚ) := by
  have hh' : (h : ℚ) ≠ 0 := by positivity
  push_cast
  field_simp

theorem nat_ratio_le_iff (a b c d : Nat) (hb : 0 < b) (hd : 0 < d) :
    (a : ℚ) / (b : ℚ) ≤ (c : ℚ) / (d : ℚ) ↔ a * d ≤ c * b := by
  rw [div_le_div_iff₀ (by exact_mod_cast hb) (by exact_mod_cast hd)]
  exact_mod_cast Iff.rfl

/-- Case analysis of `resize_image_keeping_aspect_ratio` on a rectangular
`h × w` image with positive dimensions: the early return, or a `cv2.resize`
to the branch-dependent target shape with `int(...)` realised as natural
division. -/
theorem resize_cases (interp : Raster → Nat × Nat → Nat → Nat → Pix)
    (image : Raster) (h w dw dh : Nat)
    (hrect : isRect image h w) (hh : 1 ≤ h) (hw : 1 ≤ w) :
    resize_image_keeping_aspect_ratio interp image (dw, dh) =
      if h = dh ∧ w = dw then image
      else if (dw : ℚ) / (dh : ℚ) ≤ (w : ℚ) / (h : ℚ) then
        cv2_resize interp image dw (dw * h / w)
      else cv2_resize interp image (dh * w / h) dh := by
  have hL := hrect.1
  have hW := rasterWidth_of_isRect image h w hrect hh
  unfold resize_image_keeping_aspect_ratio
  rw [hL, hW]
  rw [rat_div_div_ratio dw w h hw hh, rat_mul_ratio dh w h hh,
    ratToNat_natCast_div, ratToNat_natCast_div]
  simp [Prod.ext_iff, and_comm]

theorem cv2_resize_self_rect (interp : Raster → Nat × Nat → Nat → Nat → Pix)
    (img : Raster) (w h : Nat) :
    isRect (cv2_resize interp img w h) (cv2_resize interp img w h).length
      (rasterWidth (cv2_resize interp img w h)) := by
  cases h with
  | zero => exact ⟨rfl, by simp [cv2_resize]⟩
  | succ m =>
    have := cv2_resize_rect interp img w (m + 1)
    rw [cv2_resize_length, cv2_resize_width interp img w (m + 1) (by omega)] at *
    exact this

theorem resize_length_le (interp : Raster → Nat × Nat → Nat → Nat → Pix)
    (image : Raster) (h w dw dh : Nat)
    (hrect : isRect image h w) (hh : 1 ≤ h) (hw : 1 ≤ w) (hdh : 1 ≤ dh) :
    (resize_image_keeping_aspect_ratio interp image (dw, dh)).length ≤ dh := by
  rw [resize_cases interp image h w dw dh hrect hh hw]
  split_ifs with h1 h2
  · rw [hrect.1]; omega
  · rw [cv2_resize_length]
    have hcross : dw * h ≤ w * dh := (nat_ratio_le_iff dw dh w h hdh hh).mp h2
    calc dw * h / w ≤ w * dh / w := Nat.div_le_div_right hcross
      _ = dh := Nat.mul_div_cancel_left dh (by omega)
  · rw [cv2_resize_length]

theorem resize_width_le (interp : Raster → Nat × Nat → Nat → Nat → Pix)
    (image : Raster) (h w dw dh : Nat)
    (hrect : isRect image h w) (hh : 1 ≤ h) (hw : 1 ≤ w) (hdh : 1 ≤ dh) :
    rasterWidth (resize_image_keeping_aspect_ratio interp image (dw, dh)) ≤ dw := by
  rw [resize_cases interp image h w dw dh hrect hh hw]
  split_ifs with h1 h2
  · rw [rasterWidth_of_isRect image h w hrect hh]; omega
  · exact cv2_resize_width_le interp image dw _
  · refine le_trans (cv2_resize_width_le interp image _ dh) ?_
    have hcross : w * dh < dw * h := by
      have := (nat_ratio_le_iff dw dh w h hdh hh).not.mp h2
      omega
    have hcomm : dh * w ≤ dw * h := by rw [Nat.mul_comm dh w]; omega
    calc dh * w / h ≤ dw * h / h := Nat.div_le_div_right hcomm
      _ = dw := Nat.mul_div_cancel dw (by omega)

theorem resize_self_rect (interp : Raster → Nat × Nat → Nat → Nat → Pix)
    (image : Raster) (h w dw dh : Nat)
    (hrect : isRect image h w) (hh : 1 ≤ h) (hw : 1 ≤ w) :
    isRect (resize_image_keeping_aspect_ratio interp image (dw, dh))
      (resize_image_keeping_aspect_ratio interp image (dw, dh)).length
      (rasterWidth (resize_image_keeping_aspect_ratio interp image (dw, dh))) := by
  rw [resize_cases interp image h w dw dh hrect hh hw]
  split_ifs with h1 h2
  · exact ⟨rfl, fun row hr => by
      rw [rasterWidth_of_isRect image h w hrect hh]; exact hrect.2 row hr⟩
  · exact cv2_resize_self_rect interp image dw _
  · exact cv2_resize_self_rect interp image _ dh

/-- C4: aspect-ratio-preserving resize never exceeds the target box
`(dw, dh)`; when the image ratio `w/h` is at least the target ratio `dw/dh`
the output is `dw` wide and `⌊dw·h/w⌋` high (the width scaled by the inverse
ratio, rounded down; stated under the proviso that this height is nonzero,
since a zero-height list raster has no representable width and `cv2.resize`
rejects zero-size targets); otherwise the output is `dh` high and `⌊dh·w/h⌋`
wide; an image whose dimensions already equal the target box is returned
unchanged. -/
theorem aspect_resize_spec (interp : Raster → Nat × Nat → Nat → Nat → Pix)
    (image : Raster) (h w dw dh : Nat)
    (hrect : isRect image h w) (hh : 1 ≤ h) (hw : 1 ≤ w)
    (hdw : 1 ≤ dw) (hdh : 1 ≤ dh) :
    ((resize_image_keeping_aspect_ratio interp image (dw, dh)).length ≤ dh ∧
      rasterWidth (resize_image_keeping_aspect_ratio interp image (dw, dh)) ≤ dw) ∧
    ((dw : ℚ) / (dh : ℚ) ≤ (w : ℚ) / (h : ℚ) → 1 ≤ dw * h / w →
      rasterWidth (resize_image_keeping_aspect_ratio interp image (dw, dh)) = dw ∧
      (resize_image_keeping_aspect_ratio interp image (dw, dh)).length = dw * h / w) ∧
    ((w : ℚ) / (h : ℚ) < (dw : ℚ) / (dh : ℚ) →
      (resize_image_keeping_aspect_ratio interp image (dw, dh)).length = dh ∧
      rasterWidth (resize_image_keeping_aspect_ratio interp image (dw, dh)) = dh * w / h) ∧
    (h = dh ∧ w = dw →
      resize_image_keeping_aspect_ratio interp image (dw, dh) = image) := by
  have hca := resize_cases interp image h w dw dh hrect hh hw
  refine ⟨⟨resize_length_le interp image h w dw dh hrect hh hw hdh,
           resize_width_le interp image h w dw dh hrect hh hw hdh⟩, ?_, ?_, ?_⟩
  · intro hr hpos
    rw [hca]
    by_cases heq : h = dh ∧ w = dw
    · rw [if_pos heq]
      refine ⟨by rw [rasterWidth_of_isRect image h w hrect hh, heq.2], ?_⟩
      rw [hrect.1, ← heq.2, Nat.mul_div_cancel_left h (by omega)]
    · rw [if_neg heq, if_pos hr]
      exact ⟨cv2_resize_width interp image dw _ hpos, cv2_resize_length interp image dw _⟩
  · intro hlt
    rw [hca]
    by_cases heq : h = dh ∧ w = dw
    · exfalso
      rw [heq.1, heq.2] at hlt
      exact lt_irrefl _ hlt
    · rw [if_neg heq, if_neg (not_le.mpr hlt)]
      exact ⟨cv2_resize_length interp image _ dh, cv2_resize_width interp image _ dh hdh⟩
  · intro heq
    rw [hca, if_pos heq]

/-- A concrete constant interpolation function, used by the witnesses. -/
def constInterp : Raster → Nat × Nat → Nat → Nat → Pix := fun _ _ _ _ => (0, 0, 0)

/-- Witness for C4 on a `1 × 2` image resized into the box `(3, 4)`. -/
theorem aspect_resize_spec_witness :
    ((resize_image_keeping_aspect_ratio constInterp [[(0, 0, 0), (0, 0, 0)]] (3, 4)).length ≤ 4 ∧
      rasterWidth (resize_image_keeping_aspect_ratio constInterp
        [[(0, 0, 0), (0, 0, 0)]] (3, 4)) ≤ 3) ∧
    (((3 : Nat) : ℚ) / ((4 : Nat) : ℚ) ≤ ((2 : Nat) : ℚ) / ((1 : Nat) : ℚ) → 1 ≤ 3 * 1 / 2 →
      rasterWidth (resize_image_keeping_aspect_ratio constInterp
        [[(0, 0, 0), (0, 0, 0)]] (3, 4)) = 3 ∧
      (resize_image_keeping_aspect_ratio constInterp
        [[(0, 0, 0), (0, 0, 0)]] (3, 4)).length = 3 * 1 / 2) ∧
    (((2 : Nat) : ℚ) / ((1 : Nat) : ℚ) < ((3 : Nat) : ℚ) / ((4 : Nat) : ℚ) →
      (resize_image_keeping_aspect_ratio constInterp
        [[(0, 0, 0), (0, 0, 0)]] (3, 4)).length = 4 ∧
      rasterWidth (resize_image_keeping_aspect_ratio constInterp
        [[(0, 0, 0), (0, 0, 0)]] (3, 4)) = 4 * 2 / 1) ∧
    (1 = 4 ∧ 2 = 3 →
      resize_image_keeping_aspect_ratio constInterp [[(0, 0, 0), (0, 0, 0)]] (3, 4) =
        [[(0, 0, 0), (0, 0, 0)]]) :=
  aspect_resize_spec constInterp [[(0, 0, 0), (0, 0, 0)]] 1 2 3 4
    (by decide) (by decide) (by decide) (by decide) (by decide)

theorem getD_mem {α : Type} (l : List α) (i : Nat) (d : α) (h : i < l.length) :
    l.getD i d ∈ l := by
  induction l generalizing i with
  | nil => simp at h
  | cons a t ih =>
    cases i with
    | zero => simp
    | succ j => exact List.mem_cons_of_mem a (ih j (by simpa using h))

theorem letterbox_eq (interp : Raster → Nat × Nat → Nat → Nat → Pix)
    (image : Raster) (dw dh : Nat) (color : Pix) :
    letterbox_image interp image (dw, dh) color =
      copyMakeBorder (resize_image_keeping_aspect_ratio interp image (dw, dh))
        ((dh - (resize_image_keeping_aspect_ratio interp image (dw, dh)).length) / 2)
        (dh - (resize_image_keeping_aspect_ratio interp image (dw, dh)).length -
          (dh - (resize_image_keeping_aspect_ratio interp image (dw, dh)).length) / 2)
        ((dw - rasterWidth (resize_image_keeping_aspect_ratio interp image (dw, dh))) / 2)
        (dw - rasterWidth (resize_image_keeping_aspect_ratio interp image (dw, dh)) -
          (dw - rasterWidth (resize_image_keeping_aspect_ratio interp image (dw, dh))) / 2)
        color := rfl

theorem copyMakeBorder_eq (img : Raster) (top bottom lft rgt : Nat) (color : Pix) :
    copyMakeBorder img top bottom lft rgt color =
      List.replicate top (List.replicate (rasterWidth img + lft + rgt) color)
        ++ (img.map (fun row => List.replicate lft color ++ row ++ List.replicate rgt color)
            ++ List.replicate bottom (List.replicate (rasterWidth img + lft + rgt) color)) := by
  unfold copyMakeBorder
  rw [List.append_assoc]

/-- C5: `letterbox_image` returns a raster of exactly the requested target
dimensions `(dw, dh)`, with the resized content centred: top padding
`⌊(dh - rh)/2⌋` (rest at the bottom), left padding `⌊(dw - rw)/2⌋` (rest at
the right); every padded pixel equals the fill color and the central
rectangle carries the resized image's pixels. -/
theorem letterbox_spec (interp : Raster → Nat × Nat → Nat → Nat → Pix)
    (image : Raster) (h w dw dh : Nat) (color : Pix)
    (rs : Raster) (rh rwid top lft : Nat)
    (hrect : isRect image h w) (hh : 1 ≤ h) (hw : 1 ≤ w) (hdw : 1 ≤ dw) (hdh : 1 ≤ dh)
    (hrs : resize_image_keeping_aspect_ratio interp image (dw, dh) = rs)
    (hrh : rs.length = rh) (hrwid : rasterWidth rs = rwid)
    (htop : (dh - rh) / 2 = top) (hlft : (dw - rwid) / 2 = lft) :
    isRect (letterbox_image interp image (dw, dh) color) dh dw ∧
    ∀ y x, y < dh → x < dw →
      ((y < top ∨ top + rh ≤ y ∨ x < lft ∨ lft + rwid ≤ x) →
        getPix (letterbox_image interp image (dw, dh) color) y x = color) ∧
      (top ≤ y → y < top + rh → lft ≤ x → x < lft + rwid →
        getPix (letterbox_image interp image (dw, dh) color) y x =
          getPix rs (y - top) (x - lft)) := by
  have hrhle : rh ≤ dh := by
    rw [← hrh, ← hrs]; exact resize_length_le interp image h w dw dh hrect hh hw hdh
  have hrwle : rwid ≤ dw := by
    rw [← hrwid, ← hrs]; exact resize_width_le interp image h w dw dh hrect hh hw hdh
  have hrsrect : isRect rs rh rwid := by
    rw [← hrh, ← hrwid, ← hrs]
    exact resize_self_rect interp image h w dw dh hrect hh hw
  have htople : top ≤ dh - rh := by rw [← htop]; exact Nat.div_le_self _ _
  have hlftle : lft ≤ dw - rwid := by rw [← hlft]; exact Nat.div_le_self _ _
  have hout : letterbox_image interp image (dw, dh) color =
      List.replicate top (List.replicate (rwid + lft + (dw - rwid - lft)) color)
        ++ (rs.map (fun row =>
              List.replicate lft color ++ row ++ List.replicate (dw - rwid - lft) color)
            ++ List.replicate (dh - rh - top)
                (List.replicate (rwid + lft + (dw - rwid - lft)) color)) := by
    rw [letterbox_eq, hrs, hrh, hrwid, htop, hlft, copyMakeBorder_eq, hrwid]
  have hpadW : rwid + lft + (dw - rwid - lft) = dw := by omega
  have hrow_top : ∀ y, y < top →
      (letterbox_image interp image (dw, dh) color).getD y [] =
        List.replicate (rwid + lft + (dw - rwid - lft)) color := by
    intro y hy
    rw [hout, getD_append_lt _ _ y [] (by simpa using hy),
      getD_replicate top _ y [] hy]
  have hrow_mid : ∀ y, top ≤ y → y < top + rh →
      (letterbox_image interp image (dw, dh) color).getD y [] =
        List.replicate lft color ++ rs.getD (y - top) [] ++
          List.replicate (dw - rwid - lft) color := by
    intro y hy1 hy2
    rw [hout, getD_append_ge _ _ y [] (by simpa using hy1)]
    simp only [List.length_replicate]
    rw [getD_append_lt _ _ (y - top) [] (by simp only [List.length_map, hrh]; omega)]
    rw [getD_map _ rs (y - top) [] [] (by rw [hrh]; omega)]
  have hrow_bot : ∀ y, top + rh ≤ y → y < dh →
      (letterbox_image interp image (dw, dh) color).getD y [] =
        List.replicate (rwid + lft + (dw - rwid - lft)) color := by
    intro y hy1 hy2
    rw [hout, getD_append_ge _ _ y [] (by simp only [List.length_replicate]; omega)]
    simp only [List.length_replicate]
    rw [getD_append_ge _ _ (y - top) [] (by simp only [List.length_map, hrh]; omega)]
    simp only [List.length_map, hrh]
    rw [getD_replicate _ _ _ [] (by omega)]
  constructor
  · constructor
    · rw [hout]
      simp only [List.length_append, List.length_replicate, List.length_map, hrh]
      omega
    · intro row hrow
      rw [hout] at hrow
      rcases List.mem_append.mp hrow with h1 | h23
      · rw [List.eq_of_mem_replicate h1]
        simp [hpadW]
      · rcases List.mem_append.mp h23 with h2 | h3
        · obtain ⟨row0, hrow0, hpad⟩ := List.mem_map.mp h2
          rw [← hpad]
          simp only [List.length_append, List.length_replicate, hrsrect.2 row0 hrow0]
          omega
        · rw [List.eq_of_mem_replicate h3]
          simp [hpadW]
  · intro y x hy hx
    constructor
    · intro hcase
      unfold getPix
      rcases Nat.lt_or_ge y top with hy1 | hy1
      · rw [hrow_top y hy1, getD_replicate _ _ _ _ (by omega)]
      · rcases Nat.lt_or_ge y (top + rh) with hy2 | hy2
        · rw [hrow_mid y hy1 hy2]
          have hrow0len : (rs.getD (y - top) []).length = rwid :=
            hrsrect.2 _ (getD_mem rs (y - top) [] (by omega))
          have hxcase : x < lft ∨ lft + rwid ≤ x := by
            rcases hcase with hc | hc | hc | hc
            · omega
            · omega
            · exact Or.inl hc
            · exact Or.inr hc
          rcases hxcase with hx1 | hx1
          · rw [getD_append_lt _ _ x _
              (by simp only [List.length_append, List.length_replicate, hrow0len]; omega)]
            rw [getD_append_lt _ _ x _ (by simp only [List.length_replicate]; omega)]
            rw [getD_replicate _ _ _ _ hx1]
          · rw [getD_append_ge _ _ x _
              (by simp only [List.length_append, List.length_replicate, hrow0len]; omega)]
            simp only [List.length_append, List.length_replicate, hrow0len]
            rw [getD_replicate _ _ _ _ (by omega)]
        · rw [hrow_bot y hy2 hy, getD_replicate _ _ _ _ (by omega)]
    · intro hy1 hy2 hx1 hx2
      unfold getPix
      rw [hrow_mid y hy1 hy2]
      have hrow0len : (rs.getD (y - top) []).length = rwid :=
        hrsrect.2 _ (getD_mem rs (y - top) [] (by omega))
      rw [getD_append_lt _ _ x _
        (by simp only [List.length_append, List.length_replicate, hrow0len]; omega)]
      rw [getD_append_ge _ _ x _ (by simp only [List.length_replicate]; omega)]
      simp only [List.length_replicate]

/-- Witness for C5: a `1 × 1` image letterboxed to its own size `(1, 1)`
with fill `(9,9,9)`; the resize step returns the image itself and the
paddings are `top = 0`, `left = 0`. -/
theorem letterbox_spec_witness :
    isRect (letterbox_image constInterp [[(1, 2, 3)]] (1, 1) (9, 9, 9)) 1 1 ∧
    ∀ y x, y < 1 → x < 1 →
      ((y < 0 ∨ 0 + 1 ≤ y ∨ x < 0 ∨ 0 + 1 ≤ x) →
        getPix (letterbox_image constInterp [[(1, 2, 3)]] (1, 1) (9, 9, 9)) y x = (9, 9, 9)) ∧
      (0 ≤ y → y < 0 + 1 → 0 ≤ x → x < 0 + 1 →
        getPix (letterbox_image constInterp [[(1, 2, 3)]] (1, 1) (9, 9, 9)) y x =
          getPix [[(1, 2, 3)]] (y - 0) (x - 0)) :=
  letterbox_spec constInterp [[(1, 2, 3)]] 1 1 1 1 (9, 9, 9)
    [[(1, 2, 3)]] 1 1 0 0
    (by decide) (by decide) (by decide) (by decide) (by decide)
    (by decide) (by decide) (by decide) (by decide) (by decide)

/-- C6: letterboxing is the identity at the fixed point: a raster whose
dimensions already equal the requested target `(w, h)` is returned unchanged
(same rows, same pixels), for any fill color. -/
theorem letterbox_fixed_point (interp : Raster → Nat × Nat → Nat → Nat → Pix)
    (image : Raster) (h w : Nat) (color : Pix) (hrect : isRect image h w) :
    letterbox_image interp image (w, h) color = image := by
  rcases Nat.eq_zero_or_pos h with h0 | hpos
  · have himg : image = [] := List.length_eq_zero.mp (by rw [hrect.1, h0])
    subst himg
    subst h0
    by_cases hw0 : w = 0
    · subst hw0
      simp [letterbox_image, resize_image_keeping_aspect_ratio, copyMakeBorder,
        rasterWidth]
    · simp [letterbox_image, resize_image_keeping_aspect_ratio, copyMakeBorder,
        cv2_resize, rasterWidth, ratToNat, hw0, eq_comm]
  · have hW := rasterWidth_of_isRect image h w hrect hpos
    have hres : resize_image_keeping_aspect_ratio interp image (w, h) = image := by
      unfold resize_image_keeping_aspect_ratio
      rw [if_pos (by rw [hrect.1, hW])]
    rw [letterbox_eq, hres, hrect.1, hW]
    simp [copyMakeBorder]

/-- Witness for C6 on a concrete `1 × 1` raster. -/
theorem letterbox_fixed_point_witness :
    letterbox_image constInterp [[(1, 2, 3)]] (1, 1) (7, 7, 7) = [[(1, 2, 3)]] :=
  letterbox_fixed_point constInterp [[(1, 2, 3)]] 1 1 (7, 7, 7) (by decide)

/- ### Output-format negotiation (`_negotiate_tiles_format`) -/

/-- The dynamic type of an input image: `np.ndarray` (cv2) or `PIL.Image`
(pillow). -/
inductive ImgFormat
  | cv2Arr
  | pillowImg
deriving DecidableEq, Repr

/-- `sum(issubclass(type(i), np.ndarray) for i in images)`. -/
def countNdarray (images : List ImgFormat) : Nat :=
  images.count ImgFormat.cv2Arr

/-- `_negotiate_tiles_format`: returns "cv2" when the `np.ndarray` count is
at least `len(images) // 2` (Python integer division), else "pillow". -/
def negotiate_tiles_format (images : List ImgFormat) : String :=
  if images.length / 2 ≤ countNdarray images then "cv2" else "pillow"

/-- C1 (code bug): on a single pillow image `_negotiate_tiles_format`
returns "cv2" although the `np.ndarray`s are a strict minority (0 of 1);
the documented majority vote with ties to cv2 (format is "cv2" exactly when
`2·count ≥ len`) requires "pillow" here, since `2·0 < 1`. -/
theorem negotiate_format_single_pillow_bug :
    negotiate_tiles_format [ImgFormat.pillowImg] = "cv2" ∧
    2 * countNdarray [ImgFormat.pillowImg] < [ImgFormat.pillowImg].length := by
  constructor
  · rfl
  · decide

/- ### Title anchors normalisation (`create_tiles` and
`_prepare_default_titles_anchors`) -/

/-- The `titles_anchors` argument of `create_tiles`: `None`, one shared
`Point`, or a per-tile list of optional `Point`s. -/
inductive TitlesAnchorsArg
  | noneArg
  | single (p : Point)
  | perTile (l : List (Option Point))

/-- Modelled from the spec: the fixed-length-list `fill` primitive of
`supervision.utils.iterables` (not among the sources under scrutiny):
"pads a shorter list with a default value to a target length". -/
def fill {α : Type} (sequence : List α) (desired_size : Nat) (content : α) :
    List α :=
  sequence ++ List.replicate (desired_size - sequence.length) content

/-- The wrap in `create_tiles`: a non-list `titles_anchors` becomes a
one-element list (`[titles_anchors]`). -/
def wrapTitlesAnchors : TitlesAnchorsArg → List (Option Point)
  | .noneArg => [none]
  | .single p => [some p]
  | .perTile l => l

/-- `_prepare_default_titles_anchors`: walk `zip(images, titles_anchors)`;
a missing anchor defaults to `(width/2, height*0.1)` when the default title
placement is "top" and to `(width/2, height*0.9)` otherwise. -/
def prepare_default_titles_anchors (images : List Raster)
    (titles_anchors : List (Option Point)) (default_title_placement : String) :
    List Point :=
  match images, titles_anchors with
  | [], _ => []
  | _ :: _, [] => []
  | image :: restImages, anchor :: restAnchors =>
    (match anchor with
     | some a => a
     | none =>
       if default_title_placement = "top" then
         ⟨(rasterWidth image : ℚ) / 2, (image.length : ℚ) * (1 / 10)⟩
       else
         ⟨(rasterWidth image : ℚ) / 2, (image.length : ℚ) * (9 / 10)⟩) ::
    prepare_default_titles_anchors restImages restAnchors default_title_placement

/-- The anchors pipeline of `create_tiles` when titles are supplied: wrap a
non-list argument, `fill` to one entry per image, then default the missing
anchors per image. -/
def normalizeTitlesAnchors (images : List Raster) (arg : TitlesAnchorsArg)
    (placement : String) : List Point :=
  prepare_default_titles_anchors images
    (fill (wrapTitlesAnchors arg) images.length none) placement

/-- A concrete `2 × 2` black raster, used in concrete inputs. -/
def img2x2 : Raster := [[(0, 0, 0), (0, 0, 0)], [(0, 0, 0), (0, 0, 0)]]

/-- Counterexample to C3: with two `2 × 2` images and the single shared
anchor `(3, 7)`, the normalized anchors are `[(3,7), (1, 1/5)]` — the shared
anchor is NOT broadcast to the second image, which instead receives the
default top anchor `(width/2, height*0.1)`. -/
theorem titles_anchors_broadcast_counterexample :
    normalizeTitlesAnchors [img2x2, img2x2] (.single ⟨3, 7⟩) "top" ≠
      [⟨3, 7⟩, ⟨3, 7⟩] := by
  simp only [normalizeTitlesAnchors, fill, wrapTitlesAnchors, img2x2,
    prepare_default_titles_anchors, rasterWidth]
  norm_num

theorem prepare_all_none (imgs : List Raster) (placement : String) :
    prepare_default_titles_anchors imgs (List.replicate imgs.length none) placement =
      imgs.map (fun image =>
        if placement = "top" then
          ⟨(rasterWidth image : ℚ) / 2, (image.length : ℚ) * (1 / 10)⟩
        else ⟨(rasterWidth image : ℚ) / 2, (image.length : ℚ) * (9 / 10)⟩) := by
  induction imgs with
  | nil => rfl
  | cons a t ih =>
    simp only [List.length_cons, List.replicate_succ, List.map_cons,
      prepare_default_titles_anchors, ih]

theorem prepare_all_some (imgs : List Raster) (ps : List Point) (placement : String)
    (hlen : ps.length = imgs.length) :
    prepare_default_titles_anchors imgs (ps.map some) placement = ps := by
  induction imgs generalizing ps with
  | nil =>
    cases ps with
    | nil => rfl
    | cons q qt => simp at hlen
  | cons a t ih =>
    cases ps with
    | nil => simp at hlen
    | cons q qt =>
      simp only [List.map_cons, prepare_default_titles_anchors,
        ih qt (by simpa using hlen)]

/-- C3 (amended): `titles_anchors` normalization yields one anchor per image,
but a single (non-list) anchor applies to the FIRST image only — it is
wrapped into a one-element list and the remaining entries are filled with
`None`, so every other image receives the default anchor (`(w/2, h·0.1)` for
"top" placement, `(w/2, h·0.9)` otherwise); a per-tile list with one present
entry per image is used as-is. -/
theorem titles_anchors_normalization (images : List Raster) (p : Point)
    (placement : String) (hne : images ≠ []) :
    ((normalizeTitlesAnchors images (.single p) placement).length = images.length ∧
      (normalizeTitlesAnchors images (.single p) placement).getD 0 ⟨0, 0⟩ = p ∧
      ∀ i, 0 < i → i < images.length →
        (normalizeTitlesAnchors images (.single p) placement).getD i ⟨0, 0⟩ =
          (if placement = "top" then
            ⟨(rasterWidth (images.getD i []) : ℚ) / 2,
              ((images.getD i []).length : ℚ) * (1 / 10)⟩
          else
            ⟨(rasterWidth (images.getD i []) : ℚ) / 2,
              ((images.getD i []).length : ℚ) * (9 / 10)⟩)) ∧
    ∀ ps : List Point, ps.length = images.length →
      normalizeTitlesAnchors images (.perTile (ps.map some)) placement = ps := by
  obtain ⟨img0, rest, rfl⟩ := List.exists_cons_of_ne_nil hne
  have hsingle : normalizeTitlesAnchors (img0 :: rest) (.single p) placement =
      p :: prepare_default_titles_anchors rest
        (List.replicate rest.length none) placement := by
    simp only [normalizeTitlesAnchors, fill, wrapTitlesAnchors, List.length_cons,
      List.length_singleton, Nat.add_sub_cancel, List.singleton_append,
      prepare_default_titles_anchors]
    simp
  refine ⟨⟨?_, ?_, ?_⟩, ?_⟩
  · rw [hsingle, prepare_all_none]
    simp
  · rw [hsingle]
    rfl
  · intro i h0 hi
    rw [hsingle]
    cases i with
    | zero => omega
    | succ j =>
      rw [List.getD_cons_succ, prepare_all_none,
        getD_map _ rest j _ [] (by simpa using hi), List.getD_cons_succ]
  · intro ps hlen
    have hfill : fill (ps.map some) (img0 :: rest).length none = ps.map some := by
      simp [fill, hlen]
    unfold normalizeTitlesAnchors
    simp only [wrapTitlesAnchors]
    rw [hfill]
    exact prepare_all_some _ ps placement (by simpa using hlen)

/-- Witness for C3 (amended) on two `2 × 2` images with the shared anchor
`(3, 7)` and "top" placement. -/
theorem titles_anchors_normalization_witness :
    ((normalizeTitlesAnchors [img2x2, img2x2] (.single ⟨3, 7⟩) "top").length =
        ([img2x2, img2x2] : List Raster).length ∧
      (normalizeTitlesAnchors [img2x2, img2x2] (.single ⟨3, 7⟩) "top").getD 0 ⟨0, 0⟩ =
        ⟨3, 7⟩ ∧
      ∀ i, 0 < i → i < ([img2x2, img2x2] : List Raster).length →
        (normalizeTitlesAnchors [img2x2, img2x2] (.single ⟨3, 7⟩) "top").getD i ⟨0, 0⟩ =
          (if ("top" : String) = "top" then
            ⟨(rasterWidth (([img2x2, img2x2] : List Raster).getD i []) : ℚ) / 2,
              ((([img2x2, img2x2] : List Raster).getD i []).length : ℚ) * (1 / 10)⟩
          else
            ⟨(rasterWidth (([img2x2, img2x2] : List Raster).getD i []) : ℚ) / 2,
              ((([img2x2, img2x2] : List Raster).getD i []).length : ℚ) * (9 / 10)⟩)) ∧
    ∀ ps : List Point, ps.length = ([img2x2, img2x2] : List Raster).length →
      normalizeTitlesAnchors [img2x2, img2x2] (.perTile (ps.map some)) "top" = ps :=
  titles_anchors_normalization [img2x2, img2x2] ⟨3, 7⟩ "top" (by decide)

/- ### Tile generation and merging (`_generate_tiles`,
`_merge_tiles_elements`, `_generate_color_image`, `_draw_texts`) -/

/-- `_generate_color_image(shape, color)` with `shape = (width, height)`:
`np.ones(shape[::-1] + (3,)) * color`. -/
def generate_color_image (shape : Nat × Nat) (color : Pix) : Raster :=
  List.replicate shape.2 (List.replicate shape.1 color)

/-- Structural helper for `create_batches`: the fuel bounds the number of
chunks, so the recursion is structural and computes by reduction. -/
def create_batches_go {α : Type} (batch_size : Nat) : Nat → List α → List (List α)
  | _, [] => []
  | 0, _ :: _ => []
  | fuel + 1, x :: xs =>
    (x :: xs.take (batch_size - 1)) ::
      create_batches_go batch_size fuel (xs.drop (batch_size - 1))

/-- Modelled from the spec: the `create_batches` primitive of
`supervision.utils.iterables` (not among the sources under scrutiny):
"partitions a flat ordered sequence into equal-size chunks (last chunk may
be short)". -/
def create_batches {α : Type} (batch_size : Nat) (l : List α) : List (List α) :=
  create_batches_go batch_size l.length l

theorem create_batches_go_congr {α : Type} (k : Nat) :
    ∀ (f₁ f₂ : Nat) (l : List α), l.length ≤ f₁ → l.length ≤ f₂ →
      create_batches_go k f₁ l = create_batches_go k f₂ l := by
  intro f₁
  induction f₁ with
  | zero =>
    intro f₂ l h1 h2
    cases l with
    | nil => cases f₂ <;> rfl
    | cons x xs => simp at h1
  | succ g ih =>
    intro f₂ l h1 h2
    cases l with
    | nil => cases f₂ <;> rfl
    | cons x xs =>
      cases f₂ with
      | zero => simp at h2
      | succ g₂ =>
        show (x :: xs.take (k - 1)) ::
            create_batches_go k g (xs.drop (k - 1)) =
          (x :: xs.take (k - 1)) ::
            create_batches_go k g₂ (xs.drop (k - 1))
        congr 1
        exact ih g₂ (xs.drop (k - 1))
          (by simp only [List.length_drop]; simp only [List.length_cons] at h1; omega)
          (by simp only [List.length_drop]; simp only [List.length_cons] at h2; omega)

theorem create_batches_cons {α : Type} (k : Nat) (x : α) (xs : List α) :
    create_batches k (x :: xs) =
      (x :: xs.take (k - 1)) :: create_batches k (xs.drop (k - 1)) := by
  unfold create_batches
  simp only [List.length_cons]
  show (x :: xs.take (k - 1)) ::
      create_batches_go k xs.length (xs.drop (k - 1)) =
    (x :: xs.take (k - 1)) ::
      create_batches_go k (xs.drop (k - 1)).length (xs.drop (k - 1))
  congr 1
  exact create_batches_go_congr k xs.length _ _
    (by simp only [List.length_drop]; omega) le_rfl

/-- The `while len(tiles_elements[-1]) < columns` loop of `_generate_tiles`:
the last batch is extended with filler tiles up to `columns` entries. -/
def pad_last_batch (columns : Nat) (filler : Raster) (te : List (List Raster)) :
    List (List Raster) :=
  match te.getLast? with
  | none => te
  | some last => te.dropLast ++ [last ++ List.replicate (columns - last.length) filler]

/-- `np.concatenate([a, b], axis=1)` on rasters of equal height. -/
def hconcat (a b : Raster) : Raster := List.zipWith (· ++ ·) a b

/-- `np.concatenate(l, axis=1)`. -/
def hconcatList : List Raster → Raster
  | [] => []
  | x :: xs => xs.foldl hconcat x

/-- `np.concatenate(l, axis=0)`. -/
def vconcatList (l : List Raster) : Raster := l.join

/-- `list(itertools.chain.from_iterable(zip(row, [sep] * n)))[:-1]`. -/
def interleaveTrunc {α : Type} (row : List α) (sep : α) (n : Nat) : List α :=
  ((row.zip (List.replicate n sep)).bind (fun q => [q.1, q.2])).dropLast

/-- The `rows_with_paddings` loop of `_merge_tiles_elements`: append each row
followed by the padding strip, then drop the trailing strip. -/
def interleavePairs {α : Type} (xs : List α) (sep : α) : List α :=
  (xs.bind (fun x => [x, sep])).dropLast

/-- `_merge_tiles_elements(tiles_elements, grid_size, single_tile_size,
tile_margin, tile_margin_color)`. -/
def merge_tiles_elements (tiles_elements : List (List Raster))
    (grid_size : Nat × Nat) (single_tile_size : Nat × Nat)
    (tile_margin : Nat) (tile_margin_color : Pix) : Raster :=
  let vertical_padding : Raster :=
    List.replicate single_tile_size.2 (List.replicate tile_margin tile_margin_color)
  let merged_rows := tiles_elements.map
    (fun row => hconcatList (interleaveTrunc row vertical_padding grid_size.2))
  let row_width := rasterWidth (merged_rows.headD [])
  let horizontal_padding : Raster :=
    List.replicate tile_margin (List.replicate row_width tile_margin_color)
  vconcatList (interleavePairs merged_rows horizontal_padding)

/-- `_draw_texts`: with `titles=None` the images pass through unchanged;
otherwise each titled tile is rendered by the external `draw_text` primitive
(of `supervision.draw.utils`, outside the sources under scrutiny), supplied
here as the function parameter `drawText`; the automatic text-scale
computation is likewise absorbed into `drawText`. -/
def draw_texts (drawText : Raster → String → Point → Raster)
    (images : List Raster) (titles : Option (List (Option String)))
    (titles_anchors : List (Option Point)) (default_title_placement : String) :
    List Raster :=
  match titles with
  | none => images
  | some ts =>
    (images.zip (ts.zip
        (prepare_default_titles_anchors images titles_anchors
          default_title_placement))).map
      (fun q => match q.2.1 with
        | none => q.1
        | some t => drawText q.1 t q.2.2)

/-- `_generate_tiles`: draw titles, batch the tiles into rows of `columns`
elements, complete the last batch and any missing rows with filler tiles,
then merge. -/
def generate_tiles (drawText : Raster → String → Point → Raster)
    (images : List Raster) (grid_size : Nat × Nat) (single_tile_size : Nat × Nat)
    (tile_padding_color : Pix) (tile_margin : Nat) (tile_margin_color : Pix)
    (titles : Option (List (Option String))) (titles_anchors : List (Option Point))
    (default_title_placement : String) : Raster :=
  let drawn := draw_texts drawText images titles titles_anchors default_title_placement
  let filler := generate_color_image single_tile_size tile_padding_color
  let te := create_batches grid_size.2 drawn
  let te2 := pad_last_batch grid_size.2 filler te
  let te3 := te2 ++ List.replicate (grid_size.1 - te2.length)
    (List.replicate grid_size.2 filler)
  merge_tiles_elements te3 grid_size single_tile_size tile_margin tile_margin_color

theorem hconcat_rect (a : Raster) (h wa : Nat) (ha : isRect a h wa) :
    ∀ (b : Raster) (wb : Nat), isRect b h wb → isRect (hconcat a b) h (wa + wb) := by
  induction a generalizing h with
  | nil =>
    intro b wb hb
    have h0 : h = 0 := by simpa using ha.1.symm
    subst h0
    exact ⟨by simp [hconcat], by simp [hconcat]⟩
  | cons r t ih =>
    intro b wb hb
    cases b with
    | nil =>
      exfalso
      have h1 := ha.1
      have h2 := hb.1
      simp at h1 h2
      omega
    | cons s u =>
      have h1 := ha.1
      have h2 := hb.1
      simp only [List.length_cons] at h1 h2
      have hta : isRect t t.length wa :=
        ⟨rfl, fun rr hrr => ha.2 rr (List.mem_cons_of_mem _ hrr)⟩
      have htu : isRect u t.length wb :=
        ⟨by omega, fun rr hrr => hb.2 rr (List.mem_cons_of_mem _ hrr)⟩
      have hrec := ih t.length hta u wb htu
      refine ⟨?_, ?_⟩
      · have := hrec.1
        simp only [hconcat, List.zipWith_cons_cons, List.length_cons]
        simp only [hconcat] at this
        omega
      · intro row hrow
        simp only [hconcat, List.zipWith_cons_cons] at hrow
        rcases List.mem_cons.mp hrow with hr | hr
        · rw [hr]
          have e1 := ha.2 r (by simp)
          have e2 := hb.2 s (by simp)
          simp [e1, e2]
        · exact hrec.2 row hr

theorem isRect_congr_h (r : Raster) (a b w : Nat) (hr : isRect r a w) (e : a = b) :
    isRect r b w := e ▸ hr

theorem isRect_congr_w (r : Raster) (h a b : Nat) (hr : isRect r h a) (e : a = b) :
    isRect r h b := e ▸ hr

theorem foldl_hconcat_rect (l : List Raster) (ws : List Nat) (h : Nat)
    (hfa : List.Forall₂ (fun r wr => isRect r h wr) l ws) :
    ∀ (acc : Raster) (wa : Nat), isRect acc h wa →
      isRect (l.foldl hconcat acc) h (wa + ws.sum) := by
  induction hfa with
  | nil => intro acc wa hacc; simpa using hacc
  | @cons x y tl tws hx hrest ih =>
    intro acc wa hacc
    simp only [List.foldl_cons, List.sum_cons]
    have step := ih (hconcat acc x) (wa + y) (hconcat_rect acc h wa hacc x y hx)
    exact isRect_congr_w _ _ _ _ step (by omega)

theorem append_rect (x y : Raster) (h1 h2 W : Nat)
    (hx : isRect x h1 W) (hy : isRect y h2 W) : isRect (x ++ y) (h1 + h2) W := by
  refine ⟨by simp [hx.1, hy.1], ?_⟩
  intro row hr
  rcases List.mem_append.mp hr with hm | hm
  · exact hx.2 row hm
  · exact hy.2 row hm

theorem bind_pair_forall₂ (sep : Raster) (h tw m : Nat) (hsep : isRect sep h m) :
    ∀ (L : List Raster), (∀ r ∈ L, isRect r h tw) →
      List.Forall₂ (fun r wr => isRect r h wr)
        (L.bind (fun r => [sep, r])) (L.bind (fun _ => [m, tw])) := by
  intro L
  induction L with
  | nil => intro _; simp
  | cons a b ih =>
    intro hL
    simp only [List.cons_bind]
    exact .cons hsep (.cons (hL a (by simp))
      (ih (fun r hr => hL r (List.mem_cons_of_mem _ hr))))

theorem bind_pair_sum (m tw : Nat) (L : List Raster) :
    (L.bind (fun _ => ([m, tw] : List Nat))).sum = L.length * (m + tw) := by
  induction L with
  | nil => simp
  | cons a b ih =>
    simp only [List.cons_bind, List.sum_append, List.sum_cons, List.length_cons, ih]
    simp
    ring

theorem hconcatList_uniform (t : Raster) (rest : List Raster) (sep : Raster)
    (h tw m : Nat) (ht : isRect t h tw) (hrest : ∀ r ∈ rest, isRect r h tw)
    (hsep : isRect sep h m) :
    isRect (hconcatList (t :: rest.bind (fun r => [sep, r]))) h
      (tw + rest.length * (m + tw)) := by
  have hfa := bind_pair_forall₂ sep h tw m hsep rest hrest
  have := foldl_hconcat_rect (rest.bind (fun r => [sep, r]))
    (rest.bind (fun _ => [m, tw])) h hfa t tw ht
  rw [bind_pair_sum] at this
  exact this

theorem join_uniform (sep : Raster) (hh hs W : Nat) (hsep : isRect sep hs W) :
    ∀ (rest : List Raster) (t : Raster), isRect t hh W →
      (∀ r ∈ rest, isRect r hh W) →
      isRect ((t :: rest.bind (fun r => [sep, r])).join)
        (hh + rest.length * (hs + hh)) W := by
  intro rest
  induction rest with
  | nil =>
    intro t ht _
    simpa using ht
  | cons a b ih =>
    intro t ht hrest
    have hrec := ih a (hrest a (by simp)) (fun r hr => hrest r (List.mem_cons_of_mem _ hr))
    have hjoin : ((t :: (a :: b).bind (fun r => [sep, r])).join : Raster) =
        t ++ (sep ++ (a :: b.bind (fun r => [sep, r])).join) := by
      simp [List.cons_bind]
    rw [hjoin]
    have := append_rect t (sep ++ (a :: b.bind (fun r => [sep, r])).join)
      hh (hs + (hh + b.length * (hs + hh))) W ht
      (append_rect sep _ hs (hh + b.length * (hs + hh)) W hsep hrec)
    refine isRect_congr_h _ _ _ _ this ?_
    simp only [List.length_cons]
    ring

theorem zip_replicate_bind {α : Type} (sep : α) :
    ∀ (xs : List α),
      (xs.zip (List.replicate xs.length sep)).bind (fun q => [q.1, q.2]) =
        xs.bind (fun x => [x, sep]) := by
  intro xs
  induction xs with
  | nil => rfl
  | cons a b ih =>
    rw [List.length_cons, List.replicate_succ, List.zip_cons_cons]
    simp only [List.cons_bind]
    exact congrArg (fun z => [a, sep] ++ z) ih

theorem interleavePairs_cons {α : Type} (sep : α) :
    ∀ (rest : List α) (t : α),
      interleavePairs (t :: rest) sep = t :: rest.bind (fun r => [sep, r]) := by
  intro rest
  induction rest with
  | nil => intro t; rfl
  | cons a b ih =>
    intro t
    unfold interleavePairs at ih ⊢
    have hx : ((a :: b).bind (fun x => [x, sep]) : List α) =
        a :: (sep :: b.bind (fun x => [x, sep])) := by
      simp [List.cons_bind]
    calc ((t :: a :: b).bind (fun x => [x, sep])).dropLast
        = ([t, sep] ++ (a :: b).bind (fun x => [x, sep])).dropLast := by
          simp [List.cons_bind]
      _ = [t, sep] ++ ((a :: b).bind (fun x => [x, sep])).dropLast := by
          rw [hx, List.dropLast_append_cons, ← hx]
      _ = [t, sep] ++ (a :: b.bind (fun r => [sep, r])) := by rw [ih a]
      _ = t :: (a :: b).bind (fun r => [sep, r]) := by simp [List.cons_bind]

theorem interleaveTrunc_eq_pairs {α : Type} (xs : List α) (sep : α) :
    interleaveTrunc xs sep xs.length = interleavePairs xs sep := by
  unfold interleaveTrunc interleavePairs
  rw [zip_replicate_bind]

theorem create_batches_length_le {α : Type} (k : Nat) (hk : 1 ≤ k) :
    ∀ (r : Nat) (l : List α), l.length ≤ r * k → (create_batches k l).length ≤ r := by
  intro r
  induction r with
  | zero =>
    intro l hl
    cases l with
    | nil => simp [create_batches, create_batches_go]
    | cons x xs => simp at hl
  | succ s ih =>
    intro l hl
    cases l with
    | nil => simp [create_batches, create_batches_go]
    | cons x xs =>
      rw [create_batches_cons]
      simp only [List.length_cons]
      have hm : (s + 1) * k = s * k + k := Nat.succ_mul s k
      have hdrop : (xs.drop (k - 1)).length ≤ s * k := by
        simp only [List.length_drop]
        simp only [List.length_cons] at hl
        omega
      exact Nat.succ_le_succ (ih _ hdrop)

theorem create_batches_ne_nil {α : Type} (k : Nat) (x : α) (xs : List α) :
    create_batches k (x :: xs) ≠ [] := by
  rw [create_batches_cons]
  simp

theorem create_batches_batches {α : Type} (k : Nat) (hk : 1 ≤ k) :
    ∀ (n : Nat) (l : List α), l.length ≤ n →
      (∀ b ∈ create_batches k l, (∀ x ∈ b, x ∈ l) ∧ b.length ≤ k) ∧
      (∀ b ∈ (create_batches k l).dropLast, b.length = k) := by
  intro n
  induction n with
  | zero =>
    intro l hl
    have : l = [] := by cases l with | nil => rfl | cons a b => simp at hl
    subst this
    simp [create_batches, create_batches_go]
  | succ s ih =>
    intro l hl
    cases l with
    | nil => simp [create_batches, create_batches_go]
    | cons x xs =>
      rw [create_batches_cons]
      have hxs : (xs.drop (k - 1)).length ≤ s := by
        simp only [List.length_drop]
        simp only [List.length_cons] at hl
        omega
      obtain ⟨ihA, ihB⟩ := ih (xs.drop (k - 1)) hxs
      constructor
      · intro b hb
        rcases List.mem_cons.mp hb with rfl | hb'
        · constructor
          · intro y hy
            rcases List.mem_cons.mp hy with rfl | hy'
            · exact List.mem_cons_self _ _
            · exact List.mem_cons_of_mem _ (List.take_subset _ _ hy')
          · simp only [List.length_cons, List.length_take]
            omega
        · obtain ⟨hmem, hle⟩ := ihA b hb'
          exact ⟨fun y hy => List.mem_cons_of_mem _ (List.drop_subset _ _ (hmem y hy)),
            hle⟩
      · intro b hb
        by_cases hrest : create_batches k (xs.drop (k - 1)) = []
        · rw [hrest] at hb
          simp at hb
        · have hne : (create_batches k (xs.drop (k - 1)) : List (List α)) ≠ [] := hrest
          obtain ⟨c, cs, hcc⟩ := List.exists_cons_of_ne_nil hne
          rw [hcc, List.dropLast_cons₂] at hb
          rcases List.mem_cons.mp hb with rfl | hb'
          · have hxne : xs.drop (k - 1) ≠ [] := by
              intro hc
              rw [hc] at hrest
              simp [create_batches, create_batches_go] at hrest
            have hklt : k - 1 < xs.length := by
              by_contra hc
              exact hxne (List.drop_eq_nil_of_le (by omega))
            simp only [List.length_cons, List.length_take]
            omega
          · rw [← hcc] at hb'
            exact ihB b hb'

theorem pad_last_batch_length (cols : Nat) (filler : Raster)
    (te : List (List Raster)) :
    (pad_last_batch cols filler te).length = te.length := by
  unfold pad_last_batch
  cases h : te.getLast? with
  | none => rfl
  | some last =>
    have hne : te ≠ [] := by
      intro hc
      rw [hc] at h
      simp at h
    simp only [List.length_append, List.length_dropLast, List.length_singleton]
    have : 1 ≤ te.length := by
      cases te with
      | nil => exact absurd rfl hne
      | cons a b => simp
    omega

theorem merge_tiles_dimensions (te3 : List (List Raster)) (rows cols tw th m : Nat)
    (mcol : Pix) (hth : 1 ≤ th) (hrows : 1 ≤ rows) (hcols : 1 ≤ cols)
    (hlen : te3.length = rows)
    (hbatch : ∀ b ∈ te3, b.length = cols ∧ ∀ tile ∈ b, isRect tile th tw) :
    isRect (merge_tiles_elements te3 (rows, cols) (tw, th) m mcol)
      (rows * th + (rows - 1) * m) (cols * tw + (cols - 1) * m) := by
  have hvp : isRect (List.replicate th (List.replicate m mcol)) th m :=
    ⟨by simp, by
      intro row hr
      rw [List.eq_of_mem_replicate hr]
      simp⟩
  have hmr : ∀ row ∈ te3,
      isRect (hconcatList (interleaveTrunc row
        (List.replicate th (List.replicate m mcol)) cols)) th
        (cols * tw + (cols - 1) * m) := by
    intro row hrow
    obtain ⟨hlenr, hrect⟩ := hbatch row hrow
    cases row with
    | nil =>
      exfalso
      simp at hlenr
      omega
    | cons t rest =>
      have hrl : rest.length + 1 = cols := by simpa using hlenr
      have htt : isRect t th tw := hrect t (by simp)
      have hre : ∀ r ∈ rest, isRect r th tw :=
        fun r hr => hrect r (List.mem_cons_of_mem _ hr)
      have hinter : interleaveTrunc (t :: rest)
          (List.replicate th (List.replicate m mcol)) cols =
          t :: rest.bind
            (fun r => [List.replicate th (List.replicate m mcol), r]) := by
        rw [← hrl, show rest.length + 1 = (t :: rest).length from by simp,
          interleaveTrunc_eq_pairs, interleavePairs_cons]
      rw [hinter]
      have hu := hconcatList_uniform t rest
        (List.replicate th (List.replicate m mcol)) th tw m htt hre hvp
      refine isRect_congr_w _ _ _ _ hu ?_
      obtain ⟨s, rfl⟩ : ∃ s, cols = s + 1 := ⟨rest.length, hrl.symm⟩
      have hbs : rest.length = s := by omega
      have hs1 : s + 1 - 1 = s := rfl
      rw [hbs, hs1]
      ring
  obtain ⟨b0, brest, rfl⟩ : ∃ b0 brest, te3 = b0 :: brest := by
    cases te3 with
    | nil => simp at hlen; omega
    | cons a b => exact ⟨a, b, rfl⟩
  have hmr0 : isRect (hconcatList (interleaveTrunc b0
      (List.replicate th (List.replicate m mcol)) cols)) th
      (cols * tw + (cols - 1) * m) := hmr b0 (by simp)
  have hmerge_eq : merge_tiles_elements (b0 :: brest) (rows, cols) (tw, th) m mcol =
      vconcatList (interleavePairs
        ((b0 :: brest).map (fun row => hconcatList (interleaveTrunc row
          (List.replicate th (List.replicate m mcol)) cols)))
        (List.replicate m (List.replicate (rasterWidth
          (((b0 :: brest).map (fun row => hconcatList (interleaveTrunc row
            (List.replicate th (List.replicate m mcol)) cols))).headD []))
          mcol))) := rfl
  rw [hmerge_eq]
  simp only [List.map_cons, List.headD_cons]
  rw [rasterWidth_of_isRect _ th (cols * tw + (cols - 1) * m) hmr0 hth]
  rw [interleavePairs_cons]
  unfold vconcatList
  have hhp : isRect (List.replicate m
      (List.replicate (cols * tw + (cols - 1) * m) mcol)) m
      (cols * tw + (cols - 1) * m) :=
    ⟨by simp, by
      intro row hr
      rw [List.eq_of_mem_replicate hr]
      simp⟩
  have hj := join_uniform
    (List.replicate m (List.replicate (cols * tw + (cols - 1) * m) mcol))
    th m (cols * tw + (cols - 1) * m) hhp
    (brest.map (fun row => hconcatList (interleaveTrunc row
      (List.replicate th (List.replicate m mcol)) cols)))
    (hconcatList (interleaveTrunc b0
      (List.replicate th (List.replicate m mcol)) cols))
    hmr0
    (by
      intro r hr
      obtain ⟨row, hrow, rfl⟩ := List.mem_map.mp hr
      exact hmr row (List.mem_cons_of_mem _ hrow))
  refine isRect_congr_h _ _ _ _ hj ?_
  simp only [List.length_map]
  have hbl : brest.length + 1 = rows := by simpa using hlen
  obtain ⟨s, rfl⟩ : ∃ s, rows = s + 1 := ⟨brest.length, hbl.symm⟩
  have hbs : brest.length = s := by omega
  have hs1 : s + 1 - 1 = s := rfl
  rw [hbs, hs1]
  ring

/-- C7: for a grid `(rows, cols)`, tile size `(tw, th)`, margin `m` and a
list of tiles each exactly `th × tw` that fits the grid, `_generate_tiles`
(with no titles) produces a mosaic of exactly
`cols*tw + (cols-1)*m` by `rows*th + (rows-1)*m` pixels — no leading or
trailing margins — including when the last row is completed, or whole rows
are added, with filler tiles. -/
theorem tiles_mosaic_dimensions (drawText : Raster → String → Point → Raster)
    (images : List Raster) (rows cols tw th m : Nat) (pcol mcol : Pix)
    (anchors : List (Option Point)) (placement : String)
    (hrows : 1 ≤ rows) (hcols : 1 ≤ cols) (hth : 1 ≤ th)
    (hn1 : 1 ≤ images.length) (hn2 : images.length ≤ rows * cols)
    (htiles : ∀ img ∈ images, isRect img th tw) :
    isRect (generate_tiles drawText images (rows, cols) (tw, th) pcol m mcol
        none anchors placement)
      (rows * th + (rows - 1) * m) (cols * tw + (cols - 1) * m) := by
  have hfil : isRect (generate_color_image (tw, th) pcol) th tw :=
    ⟨by simp [generate_color_image], by
      intro row hr
      simp only [generate_color_image] at hr
      rw [List.eq_of_mem_replicate hr]
      simp⟩
  have hgen : generate_tiles drawText images (rows, cols) (tw, th) pcol m mcol
      none anchors placement =
      merge_tiles_elements
        (pad_last_batch cols (generate_color_image (tw, th) pcol)
            (create_batches cols images) ++
          List.replicate
            (rows - (pad_last_batch cols (generate_color_image (tw, th) pcol)
              (create_batches cols images)).length)
            (List.replicate cols (generate_color_image (tw, th) pcol)))
        (rows, cols) (tw, th) m mcol := rfl
  have himgne : images ≠ [] := by
    intro hc
    rw [hc] at hn1
    simp at hn1
  obtain ⟨x, xs, hximg⟩ := List.exists_cons_of_ne_nil himgne
  have htene : create_batches cols images ≠ [] := by
    rw [hximg]
    exact create_batches_ne_nil cols x xs
  have hbf := create_batches_batches cols hcols images.length images le_rfl
  have hte2len : (pad_last_batch cols (generate_color_image (tw, th) pcol)
      (create_batches cols images)).length = (create_batches cols images).length :=
    pad_last_batch_length _ _ _
  have htele : (create_batches cols images).length ≤ rows :=
    create_batches_length_le cols hcols rows images hn2
  have hte2mem : ∀ b ∈ pad_last_batch cols (generate_color_image (tw, th) pcol)
      (create_batches cols images),
      b.length = cols ∧ ∀ tile ∈ b, isRect tile th tw := by
    intro b hb
    unfold pad_last_batch at hb
    split at hb
    · next heq => exact absurd (List.getLast?_eq_none_iff.mp heq) htene
    · next last heq =>
      have hlastmem : last ∈ create_batches cols images :=
        List.mem_of_getLast?_eq_some heq
      have hlastfacts := (hbf.1 last hlastmem)
      rcases List.mem_append.mp hb with hb1 | hb2
      · have hbmem : b ∈ create_batches cols images :=
          List.dropLast_subset _ hb1
        refine ⟨hbf.2 b hb1, ?_⟩
        intro tile htile
        exact htiles tile ((hbf.1 b hbmem).1 tile htile)
      · have hbeq : b = last ++ List.replicate (cols - last.length)
            (generate_color_image (tw, th) pcol) := by simpa using hb2
        subst hbeq
        constructor
        · simp only [List.length_append, List.length_replicate]
          omega
        · intro tile htile
          rcases List.mem_append.mp htile with ht1 | ht2
          · exact htiles tile (hlastfacts.1 tile ht1)
          · rw [List.eq_of_mem_replicate ht2]
            exact hfil
  have hte3len : (pad_last_batch cols (generate_color_image (tw, th) pcol)
        (create_batches cols images) ++
      List.replicate
        (rows - (pad_last_batch cols (generate_color_image (tw, th) pcol)
          (create_batches cols images)).length)
        (List.replicate cols (generate_color_image (tw, th) pcol))).length = rows := by
    simp only [List.length_append, List.length_replicate, hte2len]
    omega
  have hte3mem : ∀ b ∈ pad_last_batch cols (generate_color_image (tw, th) pcol)
        (create_batches cols images) ++
      List.replicate
        (rows - (pad_last_batch cols (generate_color_image (tw, th) pcol)
          (create_batches cols images)).length)
        (List.replicate cols (generate_color_image (tw, th) pcol)),
      b.length = cols ∧ ∀ tile ∈ b, isRect tile th tw := by
    intro b hb
    rcases List.mem_append.mp hb with hb1 | hb2
    · exact hte2mem b hb1
    · rw [List.eq_of_mem_replicate hb2]
      refine ⟨by simp, ?_⟩
      intro tile htile
      rw [List.eq_of_mem_replicate htile]
      exact hfil
  rw [hgen]
  exact merge_tiles_dimensions _ rows cols tw th m mcol hth hrows hcols
    hte3len hte3mem

/-- A concrete no-op text renderer, used by the witnesses. -/
def constDrawText : Raster → String → Point → Raster := fun r _ _ => r

/-- Witness for C7: two `1 × 1` tiles in a `(1, 2)` grid with margin `1`
compose to a `1 × 3` mosaic. -/
theorem tiles_mosaic_dimensions_witness :
    isRect (generate_tiles constDrawText [[[(1, 1, 1)]], [[(2, 2, 2)]]] (1, 2) (1, 1)
        (0, 0, 0) 1 (5, 5, 5) none [] "top")
      (1 * 1 + (1 - 1) * 1) (2 * 1 + (2 - 1) * 1) :=
  tiles_mosaic_dimensions constDrawText [[[(1, 1, 1)]], [[(2, 2, 2)]]] 1 2 1 1 1
    (0, 0, 0) (5, 5, 5) [] "top"
    (by decide) (by decide) (by decide) (by decide) (by decide) (by decide)

/- ### The `create_tiles` orchestrator -/

/-- Error message raised for an empty image list. -/
def emptyImagesMsg : String :=
  "Could not create image tiles from empty list of images."

/-- Error message raised for an unknown `tile_scaling` mode. -/
def invalidScalingMsg (mode : String) : String :=
  "Could not aggregate images shape - provided unknown mode: " ++ mode ++
    ". Supported modes: [min, max, avg]."

/-- Error message raised when the grid cannot hold all images. -/
def gridCapacityMsg (n : Nat) (grid : Nat × Nat) : String :=
  "Could not place " ++ toString n ++ " in grid with size: (" ++
    toString grid.1 ++ ", " ++ toString grid.2 ++ ")."

/-- Python's built-in `round` (banker's rounding, half to even) on an exact
rational. -/
def pythonRound (q : ℚ) : ℤ :=
  if q - ⌊q⌋ < 1 / 2 then ⌊q⌋
  else if 1 / 2 < q - ⌊q⌋ then ⌊q⌋ + 1
  else if Even ⌊q⌋ then ⌊q⌋ else ⌊q⌋ + 1

/-- `np.min` of a list of naturals, as the exact rational numpy returns. -/
def npMin (l : List Nat) : ℚ :=
  match l with
  | [] => 0
  | x :: xs => ((xs.foldl min x : Nat) : ℚ)

/-- `np.max` of a list of naturals. -/
def npMax (l : List Nat) : ℚ :=
  match l with
  | [] => 0
  | x :: xs => ((xs.foldl max x : Nat) : ℚ)

/-- `np.average` of a list of naturals. -/
def npAverage (l : List Nat) : ℚ := (l.sum : ℚ) / (l.length : ℚ)

/-- `_calculate_aggregated_images_shape(images, aggregator)`: the pair
`(round(aggregator(widths)), round(aggregator(heights)))`, returned as
`(width, height)`. -/
def calculate_aggregated_images_shape (images : List Raster)
    (aggregator : List Nat → ℚ) : Nat × Nat :=
  ((pythonRound (aggregator (images.map rasterWidth))).toNat,
   (pythonRound (aggregator (images.map List.length))).toNat)

/-- `_aggregate_images_shape(images, mode)` with the `SHAPE_AGGREGATION_FUN`
dispatch; an unknown mode raises `ValueError`. -/
def aggregate_images_shape (images : List Raster) (mode : String) :
    Except String (Nat × Nat) :=
  if mode = "min" then .ok (calculate_aggregated_images_shape images npMin)
  else if mode = "max" then .ok (calculate_aggregated_images_shape images npMax)
  else if mode = "avg" then .ok (calculate_aggregated_images_shape images npAverage)
  else .error (invalidScalingMsg mode)

/-- The `single_tile_size` resolution of `create_tiles`: an explicit size is
used verbatim, otherwise the aggregate of the image shapes. -/
def resolve_tile_size (images : List Raster)
    (single_tile_size : Option (Nat × Nat)) (mode : String) :
    Except String (Nat × Nat) :=
  match single_tile_size with
  | some s => .ok s
  | none => aggregate_images_shape images mode

/-- `create_tiles`, with the external collaborators supplied as parameters:
`interp` for the cv2 interpolation and `drawText` for the `draw_text`
primitive.  Input images are tagged with their dynamic format;
`images_to_cv2` (the raster-normalization primitive of
`supervision.utils.conversion`, modelled from the spec: every supported
representation is converted to the internal raster) is the payload
projection, and the final `cv2_to_pillow` conversion is the output format
tag.  Colors arrive already normalized to BGR triples (`_color_to_bgr`).
Raised exceptions are modelled as `Except.error` with the message. -/
def create_tiles (interp : Raster → Nat × Nat → Nat → Nat → Pix)
    (drawText : Raster → String → Point → Raster)
    (images : List (ImgFormat × Raster))
    (grid_size : Option (Option Nat × Option Nat))
    (single_tile_size : Option (Nat × Nat))
    (tile_scaling : String)
    (tile_padding_color : Pix)
    (tile_margin : Nat)
    (tile_margin_color : Pix)
    (return_type : String)
    (titles : Option (List (Option String)))
    (titles_anchors : TitlesAnchorsArg)
    (default_title_placement : String) :
    Except String (String × Raster) :=
  if images.length = 0 then .error emptyImagesMsg
  else
    let rt := if return_type = "auto"
      then negotiate_tiles_format (images.map Prod.fst) else return_type
    let cv2_images := images.map Prod.snd
    match resolve_tile_size cv2_images single_tile_size tile_scaling with
    | .error e => .error e
    | .ok sts =>
      let resized_images := cv2_images.map
        (fun i => letterbox_image interp i sts tile_padding_color)
      let grid := establish_grid_size cv2_images.length grid_size
      if grid.1 * grid.2 < cv2_images.length then
        .error (gridCapacityMsg cv2_images.length grid)
      else
        let titles_filled :=
          titles.map (fun ts => fill ts cv2_images.length (none : Option String))
        let anchors_filled := fill (wrapTitlesAnchors titles_anchors)
          cv2_images.length none
        .ok (rt, generate_tiles drawText resized_images grid sts
          tile_padding_color tile_margin tile_margin_color
          titles_filled anchors_filled default_title_placement)

/-- A partially specified grid override must have a positive fixed entry:
Python's `math.ceil(len(images) / grid_size[i])` would raise
`ZeroDivisionError` (not a capacity error) on a zero divisor. -/
def gridArgOk : Option (Option Nat × Option Nat) → Prop
  | some (none, some c) => 1 ≤ c
  | some (some r, none) => 1 ≤ r
  | _ => True

/-- C8: whenever the image list is non-empty, the tile size resolves
(explicit override or known scaling mode) and any partial grid override is
positive, `create_tiles` fails with the grid-capacity error exactly when the
resolved grid cannot hold all images (`rows*cols < n`); the failure is an
`Except.error` (no output raster), and otherwise an output is produced. -/
theorem create_tiles_capacity (interp : Raster → Nat × Nat → Nat → Nat → Pix)
    (drawText : Raster → String → Point → Raster)
    (images : List (ImgFormat × Raster))
    (grid_size : Option (Option Nat × Option Nat))
    (single_tile_size : Option (Nat × Nat)) (tile_scaling : String)
    (sts : Nat × Nat) (pcol : Pix) (margin : Nat) (mcol : Pix)
    (return_type : String) (titles : Option (List (Option String)))
    (anchors : TitlesAnchorsArg) (placement : String)
    (hne : images ≠ [])
    (hsts : resolve_tile_size (images.map Prod.snd) single_tile_size
      tile_scaling = .ok sts)
    (hgridok : gridArgOk grid_size) :
    ((establish_grid_size images.length grid_size).1 *
        (establish_grid_size images.length grid_size).2 < images.length →
      create_tiles interp drawText images grid_size single_tile_size
          tile_scaling pcol margin mcol return_type titles anchors placement =
        .error (gridCapacityMsg images.length
          (establish_grid_size images.length grid_size))) ∧
    (images.length ≤ (establish_grid_size images.length grid_size).1 *
        (establish_grid_size images.length grid_size).2 →
      ∃ out, create_tiles interp drawText images grid_size single_tile_size
          tile_scaling pcol margin mcol return_type titles anchors placement =
        .ok out) := by
  have hn0 : ¬(images.length = 0) := fun hc => hne (List.length_eq_zero.mp hc)
  constructor
  · intro hcap
    simp only [create_tiles]
    rw [if_neg hn0, hsts]
    simp only [List.length_map]
    rw [if_pos hcap]
  · intro hfits
    simp only [create_tiles]
    rw [if_neg hn0, hsts]
    simp only [List.length_map]
    rw [if_neg (by omega)]
    exact ⟨_, rfl⟩

/-- Witness for C8: two one-pixel images with explicit `grid_size = (1, 1)`
fail with the grid-capacity error. -/
theorem create_tiles_capacity_witness :
    ((establish_grid_size
        ([((ImgFormat.cv2Arr, [[(0, 0, 0)]]) : ImgFormat × Raster),
          (ImgFormat.cv2Arr, [[(0, 0, 0)]])]).length (some (some 1, some 1))).1 *
        (establish_grid_size
          ([((ImgFormat.cv2Arr, [[(0, 0, 0)]]) : ImgFormat × Raster),
            (ImgFormat.cv2Arr, [[(0, 0, 0)]])]).length (some (some 1, some 1))).2 <
        ([((ImgFormat.cv2Arr, [[(0, 0, 0)]]) : ImgFormat × Raster),
          (ImgFormat.cv2Arr, [[(0, 0, 0)]])]).length →
      create_tiles constInterp constDrawText
          [((ImgFormat.cv2Arr, [[(0, 0, 0)]]) : ImgFormat × Raster),
            (ImgFormat.cv2Arr, [[(0, 0, 0)]])]
          (some (some 1, some 1)) (some (1, 1)) "avg" (0, 0, 0) 10 (0, 0, 0)
          "cv2" none .noneArg "top" =
        .error (gridCapacityMsg
          ([((ImgFormat.cv2Arr, [[(0, 0, 0)]]) : ImgFormat × Raster),
            (ImgFormat.cv2Arr, [[(0, 0, 0)]])]).length
          (establish_grid_size
            ([((ImgFormat.cv2Arr, [[(0, 0, 0)]]) : ImgFormat × Raster),
              (ImgFormat.cv2Arr, [[(0, 0, 0)]])]).length
            (some (some 1, some 1))))) ∧
    (([((ImgFormat.cv2Arr, [[(0, 0, 0)]]) : ImgFormat × Raster),
        (ImgFormat.cv2Arr, [[(0, 0, 0)]])]).length ≤
        (establish_grid_size
          ([((ImgFormat.cv2Arr, [[(0, 0, 0)]]) : ImgFormat × Raster),
            (ImgFormat.cv2Arr, [[(0, 0, 0)]])]).length (some (some 1, some 1))).1 *
        (establish_grid_size
          ([((ImgFormat.cv2Arr, [[(0, 0, 0)]]) : ImgFormat × Raster),
            (ImgFormat.cv2Arr, [[(0, 0, 0)]])]).length (some (some 1, some 1))).2 →
      ∃ out, create_tiles constInterp constDrawText
          [((ImgFormat.cv2Arr, [[(0, 0, 0)]]) : ImgFormat × Raster),
            (ImgFormat.cv2Arr, [[(0, 0, 0)]])]
          (some (some 1, some 1)) (some (1, 1)) "avg" (0, 0, 0) 10 (0, 0, 0)
          "cv2" none .noneArg "top" = .ok out) :=
  create_tiles_capacity constInterp constDrawText
    [(ImgFormat.cv2Arr, [[(0, 0, 0)]]), (ImgFormat.cv2Arr, [[(0, 0, 0)]])]
    (some (some 1, some 1)) (some (1, 1)) "avg" (1, 1) (0, 0, 0) 10 (0, 0, 0)
    "cv2" none .noneArg "top" (by decide) rfl trivial

theorem pythonRound_abs (q : ℚ) : |((pythonRound q : ℤ) : ℚ) - q| ≤ 1 / 2 := by
  unfold pythonRound
  have h1 := Int.floor_le q
  have h2 := Int.lt_floor_add_one q
  split_ifs with ha hb hc
  · rw [abs_le]
    constructor <;> push_cast <;> linarith
  · rw [abs_le]
    constructor <;> push_cast <;> linarith
  · rw [abs_le]
    constructor <;> push_cast <;> linarith
  · rw [abs_le]
    constructor <;> push_cast <;> linarith

theorem pythonRound_nonneg (q : ℚ) (hq : 0 ≤ q) : 0 ≤ pythonRound q := by
  have hf : (0 : ℤ) ≤ ⌊q⌋ := Int.floor_nonneg.mpr hq
  unfold pythonRound
  split_ifs <;> omega

theorem npMin_nonneg (l : List Nat) : 0 ≤ npMin l := by
  unfold npMin
  cases l with
  | nil => simp
  | cons x xs => exact Nat.cast_nonneg _

theorem npMax_nonneg (l : List Nat) : 0 ≤ npMax l := by
  unfold npMax
  cases l with
  | nil => simp
  | cons x xs => exact Nat.cast_nonneg _

theorem npAverage_nonneg (l : List Nat) : 0 ≤ npAverage l :=
  div_nonneg (Nat.cast_nonneg _) (Nat.cast_nonneg _)

theorem aggregate_round_bound (agg : List Nat → ℚ) (hnn : ∀ l, 0 ≤ agg l)
    (imgs : List Raster) :
    |((calculate_aggregated_images_shape imgs agg).1 : ℚ) -
        agg (imgs.map rasterWidth)| ≤ 1 / 2 ∧
    |((calculate_aggregated_images_shape imgs agg).2 : ℚ) -
        agg (imgs.map List.length)| ≤ 1 / 2 := by
  constructor
  · unfold calculate_aggregated_images_shape
    have hc : (((pythonRound (agg (imgs.map rasterWidth))).toNat : ℚ)) =
        ((pythonRound (agg (imgs.map rasterWidth)) : ℤ) : ℚ) := by
      exact_mod_cast Int.toNat_of_nonneg (pythonRound_nonneg _ (hnn _))
    rw [hc]
    exact pythonRound_abs _
  · unfold calculate_aggregated_images_shape
    have hc : (((pythonRound (agg (imgs.map List.length))).toNat : ℚ)) =
        ((pythonRound (agg (imgs.map List.length)) : ℤ) : ℚ) := by
      exact_mod_cast Int.toNat_of_nonneg (pythonRound_nonneg _ (hnn _))
    rw [hc]
    exact pythonRound_abs _

/-- C9 (amended): `create_tiles` fails with the invalid-scaling-mode error
for every unknown `tile_scaling` mode, provided the non-empty invocation has
no explicit `single_tile_size` (an explicit override skips aggregation and
its validation entirely); for the known modes `"min"`, `"max"`, `"avg"` the
aggregated tile size is the per-axis aggregate of all input widths and all
input heights independently, rounded to the nearest integer (distance at
most 1/2). -/
theorem scaling_mode_validation (interp : Raster → Nat × Nat → Nat → Nat → Pix)
    (drawText : Raster → String → Point → Raster)
    (images : List (ImgFormat × Raster))
    (grid_size : Option (Option Nat × Option Nat)) (mode : String)
    (pcol : Pix) (margin : Nat) (mcol : Pix) (return_type : String)
    (titles : Option (List (Option String))) (anchors : TitlesAnchorsArg)
    (placement : String)
    (hne : images ≠ [])
    (hmode : mode ≠ "min" ∧ mode ≠ "max" ∧ mode ≠ "avg") :
    create_tiles interp drawText images grid_size none mode pcol margin mcol
        return_type titles anchors placement = .error (invalidScalingMsg mode) ∧
    (∃ wh, aggregate_images_shape (images.map Prod.snd) "min" = .ok wh ∧
      |(wh.1 : ℚ) - npMin ((images.map Prod.snd).map rasterWidth)| ≤ 1 / 2 ∧
      |(wh.2 : ℚ) - npMin ((images.map Prod.snd).map List.length)| ≤ 1 / 2) ∧
    (∃ wh, aggregate_images_shape (images.map Prod.snd) "max" = .ok wh ∧
      |(wh.1 : ℚ) - npMax ((images.map Prod.snd).map rasterWidth)| ≤ 1 / 2 ∧
      |(wh.2 : ℚ) - npMax ((images.map Prod.snd).map List.length)| ≤ 1 / 2) ∧
    (∃ wh, aggregate_images_shape (images.map Prod.snd) "avg" = .ok wh ∧
      |(wh.1 : ℚ) - npAverage ((images.map Prod.snd).map rasterWidth)| ≤ 1 / 2 ∧
      |(wh.2 : ℚ) - npAverage ((images.map Prod.snd).map List.length)| ≤ 1 / 2) := by
  have hn0 : ¬(images.length = 0) := fun hc => hne (List.length_eq_zero.mp hc)
  have hagg : resolve_tile_size (images.map Prod.snd) none mode =
      .error (invalidScalingMsg mode) := by
    unfold resolve_tile_size aggregate_images_shape
    rw [if_neg hmode.1, if_neg hmode.2.1, if_neg hmode.2.2]
  refine ⟨?_, ?_, ?_, ?_⟩
  · simp only [create_tiles]
    rw [if_neg hn0, hagg]
  · exact ⟨calculate_aggregated_images_shape (images.map Prod.snd) npMin,
      by simp [aggregate_images_shape],
      (aggregate_round_bound npMin npMin_nonneg _).1,
      (aggregate_round_bound npMin npMin_nonneg _).2⟩
  · exact ⟨calculate_aggregated_images_shape (images.map Prod.snd) npMax,
      by simp [aggregate_images_shape],
      (aggregate_round_bound npMax npMax_nonneg _).1,
      (aggregate_round_bound npMax npMax_nonneg _).2⟩
  · exact ⟨calculate_aggregated_images_shape (images.map Prod.snd) npAverage,
      by simp [aggregate_images_shape],
      (aggregate_round_bound npAverage npAverage_nonneg _).1,
      (aggregate_round_bound npAverage npAverage_nonneg _).2⟩

/-- Counterexample to C9 as stated: with an explicit `single_tile_size`
override, an invocation with the unknown `tile_scaling` mode "bogus" does
NOT fail — the aggregation and its mode validation are skipped and an
output raster is produced. -/
theorem scaling_mode_skipped_counterexample :
    create_tiles constInterp constDrawText
        [((ImgFormat.cv2Arr, [[(0, 0, 0)]]) : ImgFormat × Raster)]
        none (some (1, 1)) "bogus" (7, 7, 7) 10 (8, 8, 8) "cv2" none
        .noneArg "top" =
      .ok ("cv2", [[(0, 0, 0)]]) := rfl

/-- Witness for C9 (amended): one image, no explicit tile size, mode
"bogus". -/
theorem scaling_mode_validation_witness :
    create_tiles constInterp constDrawText
        [((ImgFormat.cv2Arr, [[(0, 0, 0)]]) : ImgFormat × Raster)]
        none none "bogus" (0, 0, 0) 10 (0, 0, 0) "cv2" none .noneArg "top" =
      .error (invalidScalingMsg "bogus") ∧
    (∃ wh, aggregate_images_shape
        (([((ImgFormat.cv2Arr, [[(0, 0, 0)]]) : ImgFormat × Raster)]).map
          Prod.snd) "min" = .ok wh ∧
      |(wh.1 : ℚ) - npMin ((([((ImgFormat.cv2Arr, [[(0, 0, 0)]]) :
          ImgFormat × Raster)]).map Prod.snd).map rasterWidth)| ≤ 1 / 2 ∧
      |(wh.2 : ℚ) - npMin ((([((ImgFormat.cv2Arr, [[(0, 0, 0)]]) :
          ImgFormat × Raster)]).map Prod.snd).map List.length)| ≤ 1 / 2) ∧
    (∃ wh, aggregate_images_shape
        (([((ImgFormat.cv2Arr, [[(0, 0, 0)]]) : ImgFormat × Raster)]).map
          Prod.snd) "max" = .ok wh ∧
      |(wh.1 : ℚ) - npMax ((([((ImgFormat.cv2Arr, [[(0, 0, 0)]]) :
          ImgFormat × Raster)]).map Prod.snd).map rasterWidth)| ≤ 1 / 2 ∧
      |(wh.2 : ℚ) - npMax ((([((ImgFormat.cv2Arr, [[(0, 0, 0)]]) :
          ImgFormat × Raster)]).map Prod.snd).map List.length)| ≤ 1 / 2) ∧
    (∃ wh, aggregate_images_shape
        (([((ImgFormat.cv2Arr, [[(0, 0, 0)]]) : ImgFormat × Raster)]).map
          Prod.snd) "avg" = .ok wh ∧
      |(wh.1 : ℚ) - npAverage ((([((ImgFormat.cv2Arr, [[(0, 0, 0)]]) :
          ImgFormat × Raster)]).map Prod.snd).map rasterWidth)| ≤ 1 / 2 ∧
      |(wh.2 : ℚ) - npAverage ((([((ImgFormat.cv2Arr, [[(0, 0, 0)]]) :
          ImgFormat × Raster)]).map Prod.snd).map List.length)| ≤ 1 / 2) :=
  scaling_mode_validation constInterp constDrawText
    [(ImgFormat.cv2Arr, [[(0, 0, 0)]])] none "bogus" (0, 0, 0) 10 (0, 0, 0)
    "cv2" none .noneArg "top" (by decide) (by decide)

/- ### `place_image` -/

theorem getD_zipWith {α β γ : Type} (f : α → β → γ) (l₁ : List α) (l₂ : List β)
    (i : Nat) (d : γ) (d₁ : α) (d₂ : β) (h₁ : i < l₁.length) (h₂ : i < l₂.length) :
    (List.zipWith f l₁ l₂).getD i d = f (l₁.getD i d₁) (l₂.getD i d₂) := by
  induction l₁ generalizing l₂ i with
  | nil => simp at h₁
  | cons a t ih =>
    cases l₂ with
    | nil => simp at h₂
    | cons b u =>
      cases i with
      | zero => rfl
      | succ j => simpa using ih u j (by simpa using h₁) (by simpa using h₂)

/-- `place_image(scene, image, anchor)`: the scene is returned untouched when
the image lies entirely outside it; otherwise the numpy slice assignment
`scene[start_y:end_y, start_x:end_x] = image[crop_start_y:crop_end_y,
crop_start_x:crop_end_x]` is rendered as take/drop surgery (the crop slice
has exactly `end_y-start_y` rows and `end_x-start_x` columns, so the
`crop_end` bounds of the source are realised by the `take` counts). -/
def place_image (scene image : Raster) (anchor : ℤ × ℤ) : Raster :=
  if anchor.1 + (rasterWidth image : ℤ) ≤ 0 ∨ (rasterWidth scene : ℤ) ≤ anchor.1 ∨
      anchor.2 + (image.length : ℤ) ≤ 0 ∨ (scene.length : ℤ) ≤ anchor.2 then
    scene
  else
    scene.take (max anchor.2 0).toNat ++
      (List.zipWith
        (fun srow irow =>
          srow.take (max anchor.1 0).toNat ++
            ((irow.drop (max (-anchor.1) 0).toNat).take
              ((min (rasterWidth scene : ℤ) (anchor.1 + rasterWidth image)).toNat -
                (max anchor.1 0).toNat)) ++
            srow.drop (min (rasterWidth scene : ℤ)
              (anchor.1 + rasterWidth image)).toNat)
        ((scene.drop (max anchor.2 0).toNat).take
          ((min (scene.length : ℤ) (anchor.2 + image.length)).toNat -
            (max anchor.2 0).toNat))
        ((image.drop (max (-anchor.2) 0).toNat).take
          ((min (scene.length : ℤ) (anchor.2 + image.length)).toNat -
            (max anchor.2 0).toNat))) ++
      scene.drop (min (scene.length : ℤ) (anchor.2 + image.length)).toNat

/-- C10: `place_image` returns the scene completely unchanged when the image
lies entirely outside the scene bounds; otherwise it overwrites exactly the
clipped rectangle `[max(ay,0), min(sh,ay+ih)) × [max(ax,0), min(sw,ax+iw))`
with the corresponding cropped image pixels (scene position `(y, x)` receives
image pixel `(y-ay, x-ax)`), leaving every scene pixel outside that
rectangle unchanged. -/
theorem place_image_spec (scene image : Raster) (sh sw ih iw : Nat) (ax ay : ℤ)
    (sy sx ey ex cy cx : Nat)
    (hsc : isRect scene sh sw) (him : isRect image ih iw)
    (hsh : 1 ≤ sh) (hsw : 1 ≤ sw) (hih : 1 ≤ ih) (hiw : 1 ≤ iw)
    (hsy : (max ay 0).toNat = sy) (hsx : (max ax 0).toNat = sx)
    (hey : (min (sh : ℤ) (ay + ih)).toNat = ey)
    (hex : (min (sw : ℤ) (ax + iw)).toNat = ex)
    (hcy : (max (-ay) 0).toNat = cy) (hcx : (max (-ax) 0).toNat = cx) :
    ((ax + iw ≤ 0 ∨ (sw : ℤ) ≤ ax ∨ ay + ih ≤ 0 ∨ (sh : ℤ) ≤ ay) →
      place_image scene image (ax, ay) = scene) ∧
    (¬(ax + iw ≤ 0 ∨ (sw : ℤ) ≤ ax ∨ ay + ih ≤ 0 ∨ (sh : ℤ) ≤ ay) →
      (place_image scene image (ax, ay)).length = sh ∧
      ∀ y x, y < sh → x < sw →
        ((sy ≤ y → y < ey → sx ≤ x → x < ex →
          getPix (place_image scene image (ax, ay)) y x =
            getPix image ((y : ℤ) - ay).toNat ((x : ℤ) - ax).toNat) ∧
        (¬(sy ≤ y ∧ y < ey ∧ sx ≤ x ∧ x < ex) →
          getPix (place_image scene image (ax, ay)) y x = getPix scene y x))) := by
  have hL := hsc.1
  have hW := rasterWidth_of_isRect scene sh sw hsc hsh
  have hiL := him.1
  have hiW := rasterWidth_of_isRect image ih iw him hih
  constructor
  · intro hout
    simp only [place_image, hW, hiW, hL, hiL]
    rw [if_pos hout]
  · intro hin
    push_neg at hin
    obtain ⟨hin1, hin2, hin3, hin4⟩ := hin
    have hsy' : (sy : ℤ) = max ay 0 := by
      rw [← hsy]; exact Int.toNat_of_nonneg (le_max_right _ _)
    have hsx' : (sx : ℤ) = max ax 0 := by
      rw [← hsx]; exact Int.toNat_of_nonneg (le_max_right _ _)
    have hcy' : (cy : ℤ) = max (-ay) 0 := by
      rw [← hcy]; exact Int.toNat_of_nonneg (le_max_right _ _)
    have hcx' : (cx : ℤ) = max (-ax) 0 := by
      rw [← hcx]; exact Int.toNat_of_nonneg (le_max_right _ _)
    have hih' : (1 : ℤ) ≤ (ih : ℤ) := by exact_mod_cast hih
    have hiw' : (1 : ℤ) ≤ (iw : ℤ) := by exact_mod_cast hiw
    have hsh' : (1 : ℤ) ≤ (sh : ℤ) := by exact_mod_cast hsh
    have hsw' : (1 : ℤ) ≤ (sw : ℤ) := by exact_mod_cast hsw
    have hey' : (ey : ℤ) = min (sh : ℤ) (ay + ih) := by
      rw [← hey]; exact Int.toNat_of_nonneg (by omega)
    have hex' : (ex : ℤ) = min (sw : ℤ) (ax + iw) := by
      rw [← hex]; exact Int.toNat_of_nonneg (by omega)
    have hb1 : sy < ey := by omega
    have hb2 : ey ≤ sh := by omega
    have hb3 : sx < ex := by omega
    have hb4 : ex ≤ sw := by omega
    have hbcy : ey + cy ≤ ih + sy := by omega
    have hbcx : ex + cx ≤ iw + sx := by omega
    have hplace : place_image scene image (ax, ay) =
        scene.take sy ++
          (List.zipWith
            (fun srow irow =>
              srow.take sx ++ ((irow.drop cx).take (ex - sx)) ++ srow.drop ex)
            ((scene.drop sy).take (ey - sy))
            ((image.drop cy).take (ey - sy))) ++
          scene.drop ey := by
      simp only [place_image, hW, hiW, hL, hiL, hsy, hsx, hey, hex, hcy, hcx]
      rw [if_neg (by omega)]
    have htakeLen : (scene.take sy).length = sy := by
      simp only [List.length_take, hL]
      omega
    have hSlen : ((scene.drop sy).take (ey - sy)).length = ey - sy := by
      simp only [List.length_take, List.length_drop, hL]
      omega
    have hIlen : ((image.drop cy).take (ey - sy)).length = ey - sy := by
      simp only [List.length_take, List.length_drop, hiL]
      omega
    have hZlen : (List.zipWith
        (fun srow irow =>
          srow.take sx ++ ((irow.drop cx).take (ex - sx)) ++ srow.drop ex)
        ((scene.drop sy).take (ey - sy))
        ((image.drop cy).take (ey - sy))).length = ey - sy := by
      simp only [List.length_zipWith, hSlen, hIlen]
      omega
    have hrow_top : ∀ yy, yy < sy →
        (place_image scene image (ax, ay)).getD yy [] = scene.getD yy [] := by
      intro yy hyy
      rw [hplace,
        getD_append_lt _ _ yy []
          (by simp only [List.length_append, htakeLen, hZlen]; omega),
        getD_append_lt _ _ yy [] (by rw [htakeLen]; omega)]
      exact getD_take scene sy yy [] hyy
    have hrow_mid : ∀ yy, sy ≤ yy → yy < ey →
        (place_image scene image (ax, ay)).getD yy [] =
          (scene.getD yy []).take sx ++
            (((image.getD (cy + (yy - sy)) []).drop cx).take (ex - sx)) ++
            (scene.getD yy []).drop ex := by
      intro yy hy1 hy2
      rw [hplace,
        getD_append_lt _ _ yy []
          (by simp only [List.length_append, htakeLen, hZlen]; omega),
        getD_append_ge _ _ yy [] (by rw [htakeLen]; omega), htakeLen,
        getD_zipWith _ _ _ (yy - sy) [] [] [] (by rw [hSlen]; omega)
          (by rw [hIlen]; omega),
        getD_take _ _ _ [] (show yy - sy < ey - sy by omega), getD_drop,
        getD_take _ _ _ [] (show yy - sy < ey - sy by omega), getD_drop,
        show sy + (yy - sy) = yy from by omega]
    have hrow_bot : ∀ yy, ey ≤ yy → yy < sh →
        (place_image scene image (ax, ay)).getD yy [] = scene.getD yy [] := by
      intro yy hy1 hy2
      rw [hplace,
        getD_append_ge _ _ yy []
          (by simp only [List.length_append, htakeLen, hZlen]; omega)]
      simp only [List.length_append, htakeLen, hZlen]
      rw [getD_drop, show ey + (yy - (sy + (ey - sy))) = yy from by omega]
    have hsrow : ∀ yy, yy < sh → (scene.getD yy []).length = sw :=
      fun yy hyy => hsc.2 _ (getD_mem scene yy [] (by omega))
    have hirow : ∀ yy, sy ≤ yy → yy < ey →
        (image.getD (cy + (yy - sy)) []).length = iw := by
      intro yy hy1 hy2
      exact him.2 _ (getD_mem image (cy + (yy - sy)) [] (by omega))
    constructor
    · rw [hplace]
      simp only [List.length_append, List.length_drop, htakeLen, hZlen, hL]
      omega
    · intro y x hy hx
      constructor
      · intro hy1 hy2 hx1 hx2
        unfold getPix
        have hM : (((image.getD (cy + (y - sy)) []).drop cx).take
            (ex - sx)).length = ex - sx := by
          simp only [List.length_take, List.length_drop, hirow y hy1 hy2]
          omega
        rw [hrow_mid y hy1 hy2,
          getD_append_lt _ _ x _
            (by
              simp only [List.length_append, List.length_take, hM, hsrow y hy]
              omega),
          getD_append_ge _ _ x _
            (by simp only [List.length_take, hsrow y hy]; omega)]
        simp only [List.length_take, hsrow y hy]
        rw [show min sx sw = sx from by omega,
          getD_take _ _ _ _ (show x - sx < ex - sx from by omega), getD_drop,
          show cx + (x - sx) = ((x : ℤ) - ax).toNat from by omega,
          show cy + (y - sy) = ((y : ℤ) - ay).toNat from by omega]
      · intro hout2
        unfold getPix
        rcases Nat.lt_or_ge y sy with hc1 | hc1
        · rw [hrow_top y hc1]
        · rcases Nat.lt_or_ge y ey with hc2 | hc2
          · have hM : (((image.getD (cy + (y - sy)) []).drop cx).take
                (ex - sx)).length = ex - sx := by
              simp only [List.length_take, List.length_drop, hirow y hc1 hc2]
              omega
            rw [hrow_mid y hc1 hc2]
            have hxcase : x < sx ∨ ex ≤ x := by
              by_contra hc
              push_neg at hc
              exact hout2 ⟨hc1, hc2, by omega, by omega⟩
            rcases hxcase with hx1 | hx1
            · rw [getD_append_lt _ _ x _
                  (by
                    simp only [List.length_append, List.length_take, hM,
                      hsrow y hy]
                    omega),
                getD_append_lt _ _ x _
                  (by simp only [List.length_take, hsrow y hy]; omega)]
              exact getD_take _ _ _ _ hx1
            · rw [getD_append_ge _ _ x _
                (by
                  simp only [List.length_append, List.length_take, hM,
                    hsrow y hy]
                  omega)]
              simp only [List.length_append, List.length_take, hM, hsrow y hy]
              rw [getD_drop,
                show ex + (x - (min sx sw + (ex - sx))) = x from by omega]
          · rw [hrow_bot y hc2 hy]

/-- Witness for C10: a `2 × 2` image placed at anchor `(1, 1)` onto a
`2 × 2` scene (partial overlap clipped to the bottom-right scene pixel). -/
theorem place_image_spec_witness :
    (((1 : ℤ) + (2 : Nat) ≤ 0 ∨ ((2 : Nat) : ℤ) ≤ 1 ∨ (1 : ℤ) + (2 : Nat) ≤ 0 ∨
        ((2 : Nat) : ℤ) ≤ 1) →
      place_image [[(1, 1, 1), (2, 2, 2)], [(3, 3, 3), (4, 4, 4)]]
          [[(5, 5, 5), (6, 6, 6)], [(7, 7, 7), (8, 8, 8)]] (1, 1) =
        [[(1, 1, 1), (2, 2, 2)], [(3, 3, 3), (4, 4, 4)]]) ∧
    (¬((1 : ℤ) + (2 : Nat) ≤ 0 ∨ ((2 : Nat) : ℤ) ≤ 1 ∨ (1 : ℤ) + (2 : Nat) ≤ 0 ∨
        ((2 : Nat) : ℤ) ≤ 1) →
      (place_image [[(1, 1, 1), (2, 2, 2)], [(3, 3, 3), (4, 4, 4)]]
          [[(5, 5, 5), (6, 6, 6)], [(7, 7, 7), (8, 8, 8)]] (1, 1)).length = 2 ∧
      ∀ y x, y < 2 → x < 2 →
        ((1 ≤ y → y < 2 → 1 ≤ x → x < 2 →
          getPix (place_image [[(1, 1, 1), (2, 2, 2)], [(3, 3, 3), (4, 4, 4)]]
              [[(5, 5, 5), (6, 6, 6)], [(7, 7, 7), (8, 8, 8)]] (1, 1)) y x =
            getPix [[(5, 5, 5), (6, 6, 6)], [(7, 7, 7), (8, 8, 8)]]
              ((y : ℤ) - 1).toNat ((x : ℤ) - 1).toNat) ∧
        (¬(1 ≤ y ∧ y < 2 ∧ 1 ≤ x ∧ x < 2) →
          getPix (place_image [[(1, 1, 1), (2, 2, 2)], [(3, 3, 3), (4, 4, 4)]]
              [[(5, 5, 5), (6, 6, 6)], [(7, 7, 7), (8, 8, 8)]] (1, 1)) y x =
            getPix [[(1, 1, 1), (2, 2, 2)], [(3, 3, 3), (4, 4, 4)]] y x))) :=
  place_image_spec [[(1, 1, 1), (2, 2, 2)], [(3, 3, 3), (4, 4, 4)]]
    [[(5, 5, 5), (6, 6, 6)], [(7, 7, 7), (8, 8, 8)]] 2 2 2 2 1 1 1 1 2 2 0 0
    (by decide) (by decide) (by decide) (by decide) (by decide) (by decide)
    (by decide) (by decide) (by decide) (by decide) (by decide) (by decide)
